import Mathlib

/-!
# LocalForge — verification of the agent loop, provider adapters and tools

Shallow embedding of the core of the LocalForge repository:

* `backend/agent/loop.py`            — the agent execution loop (`run_agent`,
  `_requires_confirmation`, `_format_confirmation_message`);
* `backend/models/anthropic.py`      — the content-block streaming adapter and
  its message projection `_to_anthropic_messages`;
* `backend/models/openai_compat.py`  — the delta-chunk streaming adapter and
  its content conversion `_convert_content_for_openai`;
* `backend/tools/filesystem.py`      — the filesystem tools and the sandbox
  check `_is_under` / `_resolve_and_check`.

Python dictionaries become structures, JSON values become the `Json`
inductive, async generators become functions from the upstream chunk list to
the list of emitted events, and the file system is an explicit oracle plus an
effect trace.  `json.loads` is modelled by an executable recursive-descent
parser over the RFC 8259 grammar (with Python's `NaN` / `Infinity` extras);
fuel bounds the descent and is chosen large enough for any input of the given
length.
-/

namespace LocalForge

/-- A JSON value, as produced by Python's `json.loads`.  Numbers are kept in
decimal scientific form `mantissa * 10 ^ exponent` (so `1` parses to
`num 1 0` and `1.5` to `num 15 (-1)`); `json.loads` additionally accepts the
non-standard literals `NaN`, `Infinity` and `-Infinity`. -/
inductive Json : Type where
  | null : Json
  | bool (b : Bool) : Json
  | num (mantissa : Int) (exponent : Int) : Json
  | nan : Json
  | infinity (neg : Bool) : Json
  | str (s : String) : Json
  | arr (items : List Json) : Json
  | obj (members : List (String × Json)) : Json
deriving BEq, Repr

/-- Whitespace characters accepted between JSON tokens. -/
def isJsonWs (c : Char) : Bool :=
  c = ' ' || c = '\t' || c = '\n' || c = '\r'

/-- Drop leading JSON whitespace. -/
def skipWs : List Char → List Char
  | [] => []
  | c :: rest => if isJsonWs c then skipWs rest else c :: rest

/-- Hexadecimal digit value, for `\uXXXX` escapes. -/
def hexVal (c : Char) : Option Nat :=
  if '0' ≤ c ∧ c ≤ '9' then some (c.toNat - '0'.toNat)
  else if 'a' ≤ c ∧ c ≤ 'f' then some (c.toNat - 'a'.toNat + 10)
  else if 'A' ≤ c ∧ c ≤ 'F' then some (c.toNat - 'A'.toNat + 10)
  else none

/-- Parse the body of a JSON string (the opening quote already consumed);
returns the characters of the string and the remaining input. -/
def parseStrBody (fuel : Nat) (l : List Char) : Option (List Char × List Char) :=
  match fuel with
  | 0 => none
  | fuel + 1 =>
    match l with
    | [] => none
    | '"' :: rest => some ([], rest)
    | '\\' :: e :: rest =>
      match e with
      | '"' => (parseStrBody fuel rest).map (fun (cs, r) => ('"' :: cs, r))
      | '\\' => (parseStrBody fuel rest).map (fun (cs, r) => ('\\' :: cs, r))
      | '/' => (parseStrBody fuel rest).map (fun (cs, r) => ('/' :: cs, r))
      | 'b' => (parseStrBody fuel rest).map (fun (cs, r) => ('\x08' :: cs, r))
      | 'f' => (parseStrBody fuel rest).map (fun (cs, r) => ('\x0c' :: cs, r))
      | 'n' => (parseStrBody fuel rest).map (fun (cs, r) => ('\n' :: cs, r))
      | 'r' => (parseStrBody fuel rest).map (fun (cs, r) => ('\r' :: cs, r))
      | 't' => (parseStrBody fuel rest).map (fun (cs, r) => ('\t' :: cs, r))
      | 'u' =>
        match rest with
        | h1 :: h2 :: h3 :: h4 :: rest' =>
          match hexVal h1, hexVal h2, hexVal h3, hexVal h4 with
          | some a, some b, some c, some d =>
            let n := ((a * 16 + b) * 16 + c) * 16 + d
            let ch := if h : n.isValidChar then Char.ofNatAux n h else '?'
            (parseStrBody fuel rest').map (fun (cs, r) => (ch :: cs, r))
          | _, _, _, _ => none
        | _ => none
      | _ => none
    | c :: rest =>
      -- raw control characters below U+0020 are rejected by json.loads
      if c.toNat < 32 then none
      else (parseStrBody fuel rest).map (fun (cs, r) => (c :: cs, r))

/-- Take a maximal run of decimal digits. -/
def spanDigits : List Char → (List Char × List Char)
  | [] => ([], [])
  | c :: rest =>
    if '0' ≤ c ∧ c ≤ '9' then
      let (ds, r) := spanDigits rest
      (c :: ds, r)
    else ([], c :: rest)

/-- Decimal digits to a natural number. -/
def digitsToNat (ds : List Char) : Nat :=
  ds.foldl (fun acc c => acc * 10 + (c.toNat - '0'.toNat)) 0

/-- Parse a JSON number starting at the current position (no leading sign:
the sign is handled by the caller).  Enforces the RFC 8259 shape: the integer
part is `0` or starts with a nonzero digit, fraction and exponent parts need
at least one digit. -/
def parseNumBody (l : List Char) : Option (Json × List Char) :=
  let (intDs, r1) := spanDigits l
  if intDs = [] then none
  else if intDs.length > 1 ∧ intDs.headI = '0' then none
  else
    let (fracDs, r2) :=
      match r1 with
      | '.' :: r1' =>
        let (ds, r) := spanDigits r1'
        (some ds, r)
      | _ => (none, r1)
    match fracDs with
    | some [] => none
    | _ =>
      let frac := fracDs.getD []
      let (expPart, r3) :=
        match r2 with
        | 'e' :: r2' | 'E' :: r2' =>
          match r2' with
          | '+' :: r2'' =>
            let (ds, r) := spanDigits r2''
            (some (true, ds), r)
          | '-' :: r2'' =>
            let (ds, r) := spanDigits r2''
            (some (false, ds), r)
          | _ =>
            let (ds, r) := spanDigits r2'
            (some (true, ds), r)
        | _ => (none, r2)
      match expPart with
      | some (_, []) => none
      | _ =>
        let expVal : Int :=
          match expPart with
          | some (pos, ds) => if pos then (digitsToNat ds : Int) else -(digitsToNat ds : Int)
          | none => 0
        let mantissa : Int := (digitsToNat (intDs ++ frac) : Int)
        some (Json.num mantissa (expVal - (frac.length : Int)), r3)

mutual

/-- Parse one JSON value (and then, mutually via fuel, array items and object
members).  `fuel` dominates the recursion depth; `Json.parse` supplies enough
of it for any input. -/
def parseVal (fuel : Nat) (l : List Char) : Option (Json × List Char) :=
  match fuel with
  | 0 => none
  | fuel + 1 =>
    match skipWs l with
    | [] => none
    | 'n' :: 'u' :: 'l' :: 'l' :: rest => some (Json.null, rest)
    | 't' :: 'r' :: 'u' :: 'e' :: rest => some (Json.bool true, rest)
    | 'f' :: 'a' :: 'l' :: 's' :: 'e' :: rest => some (Json.bool false, rest)
    | 'N' :: 'a' :: 'N' :: rest => some (Json.nan, rest)
    | 'I' :: 'n' :: 'f' :: 'i' :: 'n' :: 'i' :: 't' :: 'y' :: rest =>
      some (Json.infinity false, rest)
    | '"' :: rest => (parseStrBody fuel rest).map (fun (cs, r) => (Json.str (String.mk cs), r))
    | '[' :: rest => parseArrItems fuel (skipWs rest) true
    | '{' :: rest => parseObjMembers fuel (skipWs rest) true
    | '-' :: 'I' :: 'n' :: 'f' :: 'i' :: 'n' :: 'i' :: 't' :: 'y' :: rest =>
      some (Json.infinity true, rest)
    | '-' :: rest =>
      (parseNumBody rest).map (fun (j, r) =>
        match j with
        | Json.num m e => (Json.num (-m) e, r)
        | other => (other, r))
    | l' => parseNumBody l'

/-- Parse the items of a JSON array after the opening bracket; `first` is
true when no item has been consumed yet (so `]` may follow immediately). -/
def parseArrItems (fuel : Nat) (l : List Char) (first : Bool) : Option (Json × List Char) :=
  match fuel with
  | 0 => none
  | fuel + 1 =>
    match l, first with
    | ']' :: rest, true => some (Json.arr [], rest)
    | _, _ =>
      match parseVal fuel l with
      | none => none
      | some (item, r) =>
        match skipWs r with
        | ',' :: r' =>
          match parseArrItems fuel (skipWs r') false with
          | some (Json.arr items, r'') => some (Json.arr (item :: items), r'')
          | _ => none
        | ']' :: r' => some (Json.arr [item], r')
        | _ => none

/-- Parse the members of a JSON object after the opening brace. -/
def parseObjMembers (fuel : Nat) (l : List Char) (first : Bool) : Option (Json × List Char) :=
  match fuel with
  | 0 => none
  | fuel + 1 =>
    match l, first with
    | '}' :: rest, true => some (Json.obj [], rest)
    | _, _ =>
      match l with
      | '"' :: rest =>
        match parseStrBody fuel rest with
        | none => none
        | some (key, r) =>
          match skipWs r with
          | ':' :: r' =>
            match parseVal fuel r' with
            | none => none
            | some (v, r'') =>
              match skipWs r'' with
              | ',' :: r3 =>
                match parseObjMembers fuel (skipWs r3) false with
                | some (Json.obj ms, r4) => some (Json.obj ((String.mk key, v) :: ms), r4)
                | _ => none
              | '}' :: r3 => some (Json.obj [(String.mk key, v)], r3)
              | _ => none
          | _ => none
      | _ => none

end

/-- Model of Python's `json.loads`: parse a complete JSON document, requiring
the whole input to be consumed; `none` models a raised `JSONDecodeError`. -/
def Json.parse (s : String) : Option Json :=
  match parseVal (8 * s.length + 64) s.toList with
  | some (v, rest) => if skipWs rest = [] then some v else none
  | none => none

/-! ## Rendering JSON values (model of `json.dumps`)

Used only by the default branch of `_format_confirmation_message`.  The
source calls `json.dumps(tool_input, indent=2)`; the model renders compactly
(the indentation layout of this human-readable string is not load-bearing and
no theorem depends on it). -/

/-- Escape a string for inclusion in rendered JSON. -/
def escapeJsonChar (c : Char) : List Char :=
  if c = '"' then ['\\', '"']
  else if c = '\\' then ['\\', '\\']
  else if c = '\n' then ['\\', 'n']
  else if c = '\t' then ['\\', 't']
  else if c = '\r' then ['\\', 'r']
  else [c]

/-- Render a JSON string literal. -/
def renderJsonString (s : String) : String :=
  "\"" ++ String.mk (s.toList.flatMap escapeJsonChar) ++ "\""

/-- Render a JSON number in `mantissa * 10 ^ exponent` form. -/
def renderJsonNum (m e : Int) : String :=
  if e = 0 then toString m else toString m ++ "e" ++ toString e

mutual

/-- Render a JSON value to a string (model of `json.dumps`, compact form). -/
def Json.dumps : Json → String
  | .null => "null"
  | .bool true => "true"
  | .bool false => "false"
  | .num m e => renderJsonNum m e
  | .nan => "NaN"
  | .infinity false => "Infinity"
  | .infinity true => "-Infinity"
  | .str s => renderJsonString s
  | .arr items => "[" ++ dumpsItems items ++ "]"
  | .obj ms => "\x7b" ++ dumpsMembers ms ++ "\x7d"

/-- Render array items, comma-separated. -/
def dumpsItems : List Json → String
  | [] => ""
  | [x] => Json.dumps x
  | x :: rest => Json.dumps x ++ ", " ++ dumpsItems rest

/-- Render object members, comma-separated. -/
def dumpsMembers : List (String × Json) → String
  | [] => ""
  | [(k, v)] => renderJsonString k ++ ": " ++ Json.dumps v
  | (k, v) :: rest => renderJsonString k ++ ": " ++ Json.dumps v ++ ", " ++ dumpsMembers rest

end

/-- Model of `tool_input.get(key, default)` followed by string use: returns
the member's string value, the rendered value for a non-string member, and
the default when the key is absent or the value is not an object. -/
def Json.getStr (j : Json) (key default : String) : String :=
  match j with
  | .obj ms =>
    match ms.lookup key with
    | some (.str s) => s
    | some v => Json.dumps v
    | none => default
  | _ => default

/-! ## Data model

`StreamEvent` (backend/models/base.py) is a `{type, data}` pydantic record;
each `type` occurs with a fixed `data` shape, so the model makes it a tagged
variant.  Messages are Python dicts with `role`, `content` and (for tool
messages) a `tool_use_id` or `tool_call_id` key. -/

/-- A normalized streaming event (`StreamEvent`). -/
inductive SEvent : Type where
  | iteration (n : Nat)
  | textDelta (text : String)
  | toolCall (id name : String) (input : Json)
  | toolConfirmationNeeded (tool_use_id name : String) (input : Json) (message : String)
  | toolResult (tool_use_id name result : String)
  | done (stop_reason : Option String)
  | error (message : String)
deriving BEq, Repr

/-- A content block in Anthropic block format (the internal block shape the
loop and both adapters exchange). -/
inductive Block : Type where
  | text (text : String)
  | toolUse (id name : String) (input : Json)
  | toolResult (tool_use_id : String) (content : String)
  | image (media_type data : String)
  | document (media_type data : String)
deriving BEq, Repr

/-- Message content: either a plain string or a list of content blocks. -/
inductive Content : Type where
  | str (s : String)
  | blocks (bs : List Block)
deriving BEq, Repr

/-- A chat message dict: `role`, `content`, and the optional correlation keys
`tool_use_id` / `tool_call_id` used by tool messages. -/
structure Msg : Type where
  role : String
  content : Content
  tool_use_id : Option String
  tool_call_id : Option String
deriving BEq, Repr

/-- A finalized tool call request `{id, name, input}`. -/
structure ToolCallReq : Type where
  id : String
  name : String
  input : Json
deriving BEq, Repr

/-- Outcome of `await tool.run(**tool_input)`: normal return, a raised
`PermissionError`, or any other raised exception (payload = `str(e)`). -/
inductive ExecOutcome : Type where
  | ok (result : String)
  | permissionError (message : String)
  | exn (message : String)
deriving BEq, Repr

/-- A tool as the loop sees it: a name and an execute-to-string behavior. -/
structure ToolImpl : Type where
  name : String
  run : Json → ExecOutcome

/-- The configuration fields the agent loop reads (`cfg.agent.max_iterations`,
`cfg.tools.terminal.require_confirmation`,
`cfg.tools.filesystem.require_confirmation_for`). -/
structure AppConfig : Type where
  max_iterations : Nat
  terminal_require_confirmation : Bool
  fs_require_confirmation_for : List String

/-! ## Confirmation gate (`_requires_confirmation`, `_format_confirmation_message`) -/

/-- `_requires_confirmation`: static policy over the tool name. -/
def requires_confirmation (cfg : AppConfig) (tool_name : String) (_tool_input : Json) : Bool :=
  if tool_name = "execute_command" then cfg.terminal_require_confirmation
  else if tool_name = "write_file" then cfg.fs_require_confirmation_for.contains "write_file"
  else if tool_name = "delete_file" then cfg.fs_require_confirmation_for.contains "delete_file"
  else false

/-- `_format_confirmation_message`: human-readable summary of a gated call. -/
def format_confirmation_message (tool_name : String) (tool_input : Json) : String :=
  if tool_name = "execute_command" then
    let cmd := tool_input.getStr "command" ""
    let cwd := tool_input.getStr "working_dir" "~"
    "Execute command:\n\n`" ++ cmd ++ "`\n\nin " ++ cwd
  else if tool_name = "write_file" then
    let path := tool_input.getStr "path" ""
    let mode := tool_input.getStr "mode" "overwrite"
    let content_preview := (tool_input.getStr "content" "").take 100
    "Write to file:\n\n`" ++ path ++ "`\n\nMode: " ++ mode ++
      "\n\nPreview:\n```\n" ++ content_preview ++ "...\n```"
  else if tool_name = "delete_file" then
    let path := tool_input.getStr "path" ""
    "Delete file:\n\n`" ++ path ++ "`\n\n⚠️ This action cannot be undone!"
  else
    "Run " ++ tool_name ++ " with: " ++ Json.dumps tool_input

/-! ## The agent loop (`run_agent`) -/

/-- The accumulate-then-parse step both adapters apply to a finished tool-call
arguments buffer: `json.loads(buf) if buf else {}`, with a decode error
replaced by the empty object. -/
def parseToolArguments (buf : String) : Json :=
  if buf = "" then Json.obj []
  else
    match Json.parse buf with
    | some v => v
    | none => Json.obj []

/-- What the loop accumulates while consuming one adapter stream: the events
it forwarded, the ordered tool calls, the concatenated assistant text, the
last `stop_reason`, and whether an `error` event aborted the turn. -/
structure ConsumeResult : Type where
  forwarded : List SEvent
  tool_calls : List ToolCallReq
  assistant_text : String
  stop_reason : Option (Option String)
  errored : Bool
deriving Repr

/-- One iteration's `async for` over the adapter stream: forward
`text_delta` / `tool_call` / `done` while accumulating; on `error`, forward
it and stop consuming (the generator returns).  Events of any other type are
neither forwarded nor recorded. -/
def consumeEvents : List SEvent → ConsumeResult
  | [] => ⟨[], [], "", none, false⟩
  | e :: rest =>
    match e with
    | .textDelta t =>
      let c := consumeEvents rest
      ⟨e :: c.forwarded, c.tool_calls, t ++ c.assistant_text, c.stop_reason, c.errored⟩
    | .toolCall i n inp =>
      let c := consumeEvents rest
      ⟨e :: c.forwarded, ⟨i, n, inp⟩ :: c.tool_calls, c.assistant_text, c.stop_reason, c.errored⟩
    | .done r =>
      let c := consumeEvents rest
      ⟨e :: c.forwarded, c.tool_calls, c.assistant_text, c.stop_reason.orElse (fun _ => some r),
        c.errored⟩
    | .error _ => ⟨[e], [], "", none, true⟩
    | _ =>
      consumeEvents rest

/-- The assistant turn appended to the working history after a stream ends:
Anthropic-shaped histories get a block list (text block if the text is
nonempty, then one `tool_use` block per call, in order); OpenAI-shaped
histories get the plain assistant text. -/
def assistant_turn_message (is_anthropic : Bool) (assistant_text : String)
    (tool_calls : List ToolCallReq) : Msg :=
  if is_anthropic then
    let blocks :=
      (if assistant_text ≠ "" then [Block.text assistant_text] else []) ++
        tool_calls.map (fun tc => Block.toolUse tc.id tc.name tc.input)
    ⟨"assistant", Content.blocks blocks, none, none⟩
  else
    ⟨"assistant", Content.str assistant_text, none, none⟩

/-- `tool_map = {t.name: t for t in tools}` followed by `tool_map.get(name)`:
on duplicate names the later tool wins, as in a Python dict comprehension. -/
def toolMapLookup (tools : List ToolImpl) (name : String) : Option ToolImpl :=
  tools.reverse.find? (fun t => t.name == name)

/-- The provisional result string emitted and recorded for a gated call. -/
def waitingMessage : String := "⏳ Waiting for user confirmation..."

/-- The ceiling error message `f"Max iterations ({max_iter}) reached"`. -/
def maxIterationsMessage (max_iter : Nat) : String :=
  "Max iterations (" ++ toString max_iter ++ ") reached"

/-- The result string recorded for one tool call: unknown tool, normal
result, `PermissionError`, or any other exception. -/
def toolResultString (tools : List ToolImpl) (tc : ToolCallReq) : String :=
  match toolMapLookup tools tc.name with
  | none => "Error: unknown tool '" ++ tc.name ++ "'"
  | some tool =>
    match tool.run tc.input with
    | .ok r => r
    | .permissionError e => "Permission denied: " ++ e
    | .exn e => "Tool error: " ++ e

/-- Processing of a single tool call by the loop body: the emitted events and
the messages appended to the working history, in order.  A known gated tool
first yields `tool_confirmation_needed` plus a provisional `tool_result` and
records the provisional tool message (always under the `tool_use_id` key);
execution then proceeds regardless, and the real result is recorded under
`tool_use_id` (Anthropic) or `tool_call_id` (OpenAI). -/
def execOneTool (cfg : AppConfig) (tools : List ToolImpl) (is_anthropic : Bool)
    (tc : ToolCallReq) : List SEvent × List Msg :=
  let tool := toolMapLookup tools tc.name
  let gate :=
    if tool.isSome && requires_confirmation cfg tc.name tc.input then
      ([SEvent.toolConfirmationNeeded tc.id tc.name tc.input
          (format_confirmation_message tc.name tc.input),
        SEvent.toolResult tc.id tc.name waitingMessage],
       [(⟨"tool", Content.str waitingMessage, some tc.id, none⟩ : Msg)])
    else ([], [])
  let result := toolResultString tools tc
  let resultMsg : Msg :=
    if is_anthropic then ⟨"tool", Content.str result, some tc.id, none⟩
    else ⟨"tool", Content.str result, none, some tc.id⟩
  (gate.1 ++ [SEvent.toolResult tc.id tc.name result], gate.2 ++ [resultMsg])

/-- Sequential execution of all of an iteration's tool calls, in request
order. -/
def execToolCalls (cfg : AppConfig) (tools : List ToolImpl) (is_anthropic : Bool) :
    List ToolCallReq → List SEvent × List Msg
  | [] => ([], [])
  | tc :: rest =>
    let one := execOneTool cfg tools is_anthropic tc
    let more := execToolCalls cfg tools is_anthropic rest
    (one.1 ++ more.1, one.2 ++ more.2)

/-- An adapter as the loop sees it: the provider-kind test
`"anthropic" in type(adapter).__name__.lower()` and the stream of normalized
events produced for a given working history (tool specs and system prompt are
fixed for the turn and folded into the behavior). -/
structure AdapterModel : Type where
  is_anthropic : Bool
  stream_chat : List Msg → List SEvent

/-- The iteration loop of `run_agent`, with the remaining iteration budget
explicit: returns the emitted events and the final working history.  When the
budget is exhausted (`for iteration in range(max_iter)` completes) the
ceiling error is emitted. -/
def runAgentGo (cfg : AppConfig) (adapter : AdapterModel) (tools : List ToolImpl) :
    Nat → Nat → List Msg → List SEvent × List Msg
  | 0, _, working => ([SEvent.error (maxIterationsMessage cfg.max_iterations)], working)
  | remaining + 1, iter, working =>
    let c := consumeEvents (adapter.stream_chat working)
    let head := SEvent.iteration (iter + 1) :: c.forwarded
    if c.errored then (head, working)
    else
      let working' :=
        working ++ [assistant_turn_message adapter.is_anthropic c.assistant_text c.tool_calls]
      if c.tool_calls.isEmpty then (head, working')
      else
        let t := execToolCalls cfg tools adapter.is_anthropic c.tool_calls
        let rest := runAgentGo cfg adapter tools remaining (iter + 1) (working' ++ t.2)
        (head ++ t.1 ++ rest.1, rest.2)

/-- `run_agent(messages, adapter, extra_tools)`: `tools` models the combined
enabled-plus-extra tool list.  `working_messages = list(messages)` copies the
caller's list, so the model threads a history that starts as `messages` and
only ever grows by appends; the returned second component is the final
working history. -/
def run_agent (cfg : AppConfig) (adapter : AdapterModel) (tools : List ToolImpl)
    (messages : List Msg) : List SEvent × List Msg :=
  runAgentGo cfg adapter tools cfg.max_iterations 0 messages

/-! ## Content-block adapter (`AnthropicAdapter.stream_chat`)

The upstream SDK events are modelled by `AnthEvent`; the adapter is the pure
normalization from the upstream event list to the emitted `StreamEvent`s.
Transport construction and the `except` conversion of raised exceptions to a
single `error` event are outside the chunk-sequence model. -/

/-- The fields of `event.content_block` the adapter reads. -/
structure AnthContentBlock : Type where
  btype : String
  id : String
  name : String
deriving BEq, Repr

/-- The upstream Anthropic streaming events the adapter dispatches on.
`inputJsonDelta` carries `delta.partial_json`; `messageStop` carries the
`stop_reason` of the final message fetched on `RawMessageStopEvent`. -/
inductive AnthEvent : Type where
  | contentBlockStart (block : AnthContentBlock)
  | textDelta (text : String)
  | inputJsonDelta (fragment : String)
  | contentBlockStop
  | messageStop (final_stop_reason : Option String)
deriving BEq, Repr

/-- The adapter's accumulation state: `current_tool_id`, `current_tool_name`
and the `current_tool_input_json` buffer.  The id and name are set together
by a tool-use block start and cleared together on block stop. -/
structure AnthState : Type where
  current_tool_id : Option String
  current_tool_name : Option String
  current_tool_input_json : String
deriving BEq, Repr

/-- One upstream event step of the content-block adapter. -/
def anthStep (st : AnthState) (e : AnthEvent) : AnthState × List SEvent :=
  match e with
  | .contentBlockStart block =>
    if block.btype = "tool_use" then (⟨some block.id, some block.name, ""⟩, [])
    else (st, [])
  | .textDelta t => (st, [SEvent.textDelta t])
  | .inputJsonDelta f =>
    (⟨st.current_tool_id, st.current_tool_name, st.current_tool_input_json ++ f⟩, [])
  | .contentBlockStop =>
    match st.current_tool_name with
    | some nm =>
      (⟨none, none, ""⟩,
       [SEvent.toolCall (st.current_tool_id.getD "") nm
          (parseToolArguments st.current_tool_input_json)])
    | none => (st, [])
  | .messageStop r => (st, [SEvent.done r])

/-- Process a list of upstream events, threading the state. -/
def anthProcess (st : AnthState) : List AnthEvent → AnthState × List SEvent
  | [] => (st, [])
  | e :: rest =>
    let s1 := anthStep st e
    let s2 := anthProcess s1.1 rest
    (s2.1, s1.2 ++ s2.2)

/-- The content-block adapter's emitted event list for an upstream event
sequence (initial state: no open tool-use buffer). -/
def anthropic_stream_chat (events : List AnthEvent) : List SEvent :=
  (anthProcess ⟨none, none, ""⟩ events).2

/-! ## Delta-chunk adapter (`OpenAICompatAdapter.stream_chat`) -/

/-- One entry of `delta.tool_calls`: an index, an optional id, and the
optional `function.name` / `function.arguments` fragments. -/
structure OAToolCallDelta : Type where
  index : Nat
  id : Option String
  fn_name : Option String
  fn_arguments : Option String
deriving BEq, Repr

/-- The fields of `chunk.choices[0]` the adapter reads. -/
structure OAChoice : Type where
  content : Option String
  tool_calls : List OAToolCallDelta
  finish_reason : Option String
deriving BEq, Repr

/-- An upstream chunk: either one with an empty `choices` array (skipped by
`continue`) or one carrying a first choice. -/
inductive OAChunk : Type where
  | noChoices
  | chunk (choice : OAChoice)
deriving BEq, Repr

/-- One accumulating entry of `tool_calls_acc`. -/
structure OAEntry : Type where
  id : String
  name : String
  arguments : String
deriving BEq, Repr

/-- Apply one `tool_calls` delta to the accumulation map (insertion-ordered
association list keyed by chunk-local index): create the entry on first
sight, set id/name when the delta carries a truthy one, append to the
arguments buffer. -/
def oaApplyDelta (acc : List (Nat × OAEntry)) (d : OAToolCallDelta) : List (Nat × OAEntry) :=
  let acc1 := if acc.any (fun p => p.1 == d.index) then acc else acc ++ [(d.index, ⟨"", "", ""⟩)]
  acc1.map (fun p =>
    if p.1 == d.index then
      let e0 := p.2
      let e1 := match d.id with
        | some i => if i == "" then e0 else ⟨i, e0.name, e0.arguments⟩
        | none => e0
      let e2 := match d.fn_name with
        | some n => if n == "" then e1 else ⟨e1.id, n, e1.arguments⟩
        | none => e1
      let e3 := match d.fn_arguments with
        | some a => ⟨e2.id, e2.name, e2.arguments ++ a⟩
        | none => e2
      (p.1, e3)
    else p)

/-- The adapter's per-stream state: the accumulation map and the
`emitted_done` flag guarding the synthetic terminal `done`. -/
structure OAState : Type where
  tool_calls_acc : List (Nat × OAEntry)
  emitted_done : Bool
deriving BEq, Repr

/-- Emit one `tool_call` event per accumulated entry, parsing each arguments
buffer (empty or malformed buffers become the empty object). -/
def oaEmitToolCalls (acc : List (Nat × OAEntry)) : List SEvent :=
  acc.map (fun p => SEvent.toolCall p.2.id p.2.name (parseToolArguments p.2.arguments))

/-- One chunk step of the delta-chunk adapter: emit a truthy content delta
immediately, fold the tool-call deltas into the map, then handle
`finish_reason`: `"tool_calls"` flushes every entry and emits
`done{"tool_calls"}`; `"stop"`/`"length"`/`"end_turn"` flushes only entries
with a non-empty name and emits `done{finish_reason}`; anything else leaves
the state accumulating. -/
def oaStep (st : OAState) (ch : OAChunk) : OAState × List SEvent :=
  match ch with
  | .noChoices => (st, [])
  | .chunk choice =>
    let textEvents :=
      match choice.content with
      | some t => if t == "" then [] else [SEvent.textDelta t]
      | none => []
    let acc := choice.tool_calls.foldl oaApplyDelta st.tool_calls_acc
    if choice.finish_reason == some "tool_calls" then
      (⟨[], true⟩, textEvents ++ oaEmitToolCalls acc ++ [SEvent.done (some "tool_calls")])
    else if choice.finish_reason == some "stop" || choice.finish_reason == some "length" ||
        choice.finish_reason == some "end_turn" then
      (⟨[], true⟩,
       textEvents ++ oaEmitToolCalls (acc.filter (fun p => !(p.2.name == ""))) ++
         [SEvent.done choice.finish_reason])
    else
      (⟨acc, st.emitted_done⟩, textEvents)

/-- Process a list of upstream chunks, threading the state. -/
def oaProcess (st : OAState) : List OAChunk → OAState × List SEvent
  | [] => (st, [])
  | ch :: rest =>
    let s1 := oaStep st ch
    let s2 := oaProcess s1.1 rest
    (s2.1, s1.2 ++ s2.2)

/-- The delta-chunk adapter's emitted event list for an upstream chunk
sequence: after the stream is exhausted, a synthetic `done{"stop"}` is
emitted unless some chunk already produced a terminal `done`. -/
def openai_stream_chat (chunks : List OAChunk) : List SEvent :=
  let r := oaProcess ⟨[], false⟩ chunks
  r.2 ++ (if r.1.emitted_done then [] else [SEvent.done (some "stop")])

/-! ## Message projections -/

/-- Python `str(content)` as applied to a message's content when building a
wire tool message.  Loop-built tool messages always carry string content; the
list case (Python would render the list's `repr`) is approximated by a
placeholder and is unreachable from loop-built histories. -/
def contentPyStr : Content → String
  | .str s => s
  | .blocks _ => "[...]"

/-- `_to_anthropic_messages`: tool messages become a user message wrapping a
single `tool_result` block; list content passes through unchanged; other
content becomes its string form. -/
def to_anthropic_messages (messages : List Msg) : List Msg :=
  messages.map (fun msg =>
    if msg.role == "tool" then
      ⟨"user",
       Content.blocks [Block.toolResult (msg.tool_use_id.getD "") (contentPyStr msg.content)],
       none, none⟩
    else
      match msg.content with
      | Content.blocks bs => ⟨msg.role, Content.blocks bs, none, none⟩
      | Content.str s => ⟨msg.role, Content.str s, none, none⟩)

/-- A content block in OpenAI wire format. -/
inductive OABlock : Type where
  | text (text : String)
  | imageUrl (url : String)
deriving BEq, Repr

/-- OpenAI wire message content: a plain string or a block list. -/
inductive OAContent : Type where
  | str (s : String)
  | blocks (bs : List OABlock)
deriving BEq, Repr

/-- An OpenAI wire message as built by the adapter: `role`, the correlating
`tool_call_id` for tool messages, and the converted content.  This is the
complete outbound representation — it has no field carrying tool calls of an
assistant turn. -/
structure OAMessage : Type where
  role : String
  tool_call_id : Option String
  content : OAContent
deriving BEq, Repr

/-- `_convert_content_for_openai`, with PDF text extraction (an external
`pypdf` concern) abstracted as `extract_pdf`: text passes through, base64
images become data-URI blocks, documents become extracted text, tool-result
blocks become their content string; a single resulting text block collapses
to a plain string. -/
def convert_content_for_openai (extract_pdf : String → String) : Content → OAContent
  | .str s => OAContent.str s
  | .blocks bs =>
    let result := bs.foldl (fun acc block =>
      match block with
      | .text t => acc ++ [OABlock.text t]
      | .image mime data => acc ++ [OABlock.imageUrl ("data:" ++ mime ++ ";base64," ++ data)]
      | .document _ data => acc ++ [OABlock.text (extract_pdf data)]
      | .toolResult _ c => acc ++ [OABlock.text c]
      | .toolUse _ _ _ => acc) []
    match result with
    | [] => OAContent.str ""
    | [OABlock.text t] => OAContent.str t
    | r => OAContent.blocks r

/-- The outbound OpenAI message list built at the top of
`OpenAICompatAdapter.stream_chat`: the system prompt is prepended, tool
messages become tool-role messages keyed by
`msg.get("tool_use_id", msg.get("tool_call_id", ""))`, and all other
messages get converted content. -/
def to_openai_messages (extract_pdf : String → String) (system : String)
    (messages : List Msg) : List OAMessage :=
  ⟨"system", none, OAContent.str system⟩ ::
    messages.map (fun msg =>
      if msg.role == "tool" then
        ⟨"tool", some (msg.tool_use_id.getD (msg.tool_call_id.getD "")),
         OAContent.str (contentPyStr msg.content)⟩
      else
        ⟨msg.role, none, convert_content_for_openai extract_pdf msg.content⟩)

/-- Read back the tool calls (id, name, input) encoded in an
Anthropic-format wire message: the `tool_use` blocks, in order. -/
def anthropicWireToolCalls (m : Msg) : List ToolCallReq :=
  match m.content with
  | .blocks bs =>
    bs.filterMap (fun b =>
      match b with
      | .toolUse i n inp => some ⟨i, n, inp⟩
      | _ => none)
  | .str _ => []

/-- Read back the tool calls encoded in an OpenAI wire message.  The wire
message shape built by the adapter (`role`, `tool_call_id`, `content` of text
and image blocks) has no component that can encode a tool call's id, name or
input, so nothing can be read back. -/
def openaiWireToolCalls (_m : OAMessage) : List ToolCallReq := []

/-! ## Filesystem tools (`backend/tools/filesystem.py`)

`Path(path).expanduser().resolve()` (tilde expansion plus symlink
resolution) is an operating-system concern and is abstracted as a `resolve`
function; the file system itself is an oracle (`FileSystem`), and each tool's
`run` returns its outcome together with the trace of filesystem operations it
performed.  `os.path.normcase` is modelled as lowercasing, the behavior the
function's own doc documents ("case-insensitively (Windows-safe)"); path
separators are taken in `/` form. -/

/-- `os.path.normcase` on a character list: lowercase every character. -/
def normcaseL (l : List Char) : List Char := l.map Char.toLower

/-- `.rstrip(os.sep + "/")`: drop trailing separator characters. -/
def rstripSlashL (l : List Char) : List Char :=
  (l.reverse.dropWhile (fun c => c == '/')).reverse

/-- The core of `_is_under` after case normalization: append one separator to
each stripped path and test whether the parent is a leading piece of the
child. -/
def isUnderL (child parent : List Char) : Bool :=
  (rstripSlashL parent ++ ['/']).isPrefixOf (rstripSlashL child ++ ['/'])

/-- `_is_under(child, parent)`: containment of `child` in `parent`,
case-insensitive. -/
def is_under (child parent : String) : Bool :=
  isUnderL (normcaseL child.toList) (normcaseL parent.toList)

/-- Python `repr` of a list of strings, as interpolated into the access
denied message. -/
def reprStrList (paths : List String) : String :=
  "[" ++ String.intercalate ", " (paths.map (fun p => "'" ++ p ++ "'")) ++ "]"

/-- The `PermissionError` message raised by `_resolve_and_check`. -/
def accessDeniedMessage (resolved : String) (allowed : List String) : String :=
  "Access denied: '" ++ resolved ++ "' is outside allowed paths " ++ reprStrList allowed

/-- `_resolve_and_check`: resolve the path, return it if it is under some
allowed root, otherwise raise `PermissionError` (modelled as `Except.error`
with the message). -/
def resolve_and_check (resolve : String → String) (allowed : List String) (path : String) :
    Except String String :=
  let resolved := resolve path
  if allowed.any (fun a => is_under resolved a) then Except.ok resolved
  else Except.error (accessDeniedMessage resolved allowed)

/-- One directory entry as `iterdir` reports it. -/
structure FsEntry : Type where
  name : String
  isDir : Bool
  size : Nat
deriving BEq, Repr

/-- The file-system oracle: answers the queries the tools make.  `readText`
returns `none` where Python raises (`UnicodeDecodeError` for `read_file`, any
read failure for the grep mode's guarded read); `listEntries` is
`sorted(iterdir())`; `globMatches` / `rglobFiles` are the match lists in
traversal order. -/
structure FileSystem : Type where
  pathExists : String → Bool
  isFile : String → Bool
  isDir : String → Bool
  fileSize : String → Nat
  readText : String → Option String
  listEntries : String → List FsEntry
  globMatches : String → String → List String
  rglobFiles : String → List String

/-- A filesystem side effect performed by a tool. -/
inductive FsOp : Type where
  | readFile (path : String)
  | writeFile (path : String)
  | appendFile (path : String)
  | mkdirParents (path : String)
  | unlink (path : String)
  | listDir (path : String)
  | globSearch (path pattern : String)
deriving BEq, Repr

/-- `ReadFileTool.run`. -/
def read_file_run (resolve : String → String) (allowed : List String) (fs : FileSystem)
    (max_file_size_mb : Nat) (path encoding : String) : ExecOutcome × List FsOp :=
  match resolve_and_check resolve allowed path with
  | .error m => (.permissionError m, [])
  | .ok resolved =>
    let max_bytes := max_file_size_mb * 1024 * 1024
    if !(fs.pathExists resolved) then (.ok ("Error: file not found: " ++ resolved), [])
    else if !(fs.isFile resolved) then (.ok ("Error: not a file: " ++ resolved), [])
    else if fs.fileSize resolved > max_bytes then
      (.ok ("Error: file too large (max " ++ toString max_file_size_mb ++ " MB)"), [])
    else
      match fs.readText resolved with
      | some t => (.ok t, [FsOp.readFile resolved])
      | none =>
        (.ok ("Error: cannot decode file as " ++ encoding ++ ". It may be a binary file."),
         [FsOp.readFile resolved])

/-- `Path(p).parent` for an already-resolved path string. -/
def parentDir (p : String) : String :=
  let chars := p.toList
  let upToSep := (chars.reverse.dropWhile (fun c => !(c == '/'))).reverse
  match rstripSlashL upToSep with
  | [] => if upToSep = [] then "." else "/"
  | stripped => String.mk stripped

/-- `WriteFileTool.run`: ensure the parent directory, then write or append. -/
def write_file_run (resolve : String → String) (allowed : List String)
    (path content mode : String) : ExecOutcome × List FsOp :=
  match resolve_and_check resolve allowed path with
  | .error m => (.permissionError m, [])
  | .ok resolved =>
    let file_mode := if mode = "append" then "a" else "w"
    let ops := FsOp.mkdirParents (parentDir resolved) ::
      (if file_mode = "w" then [FsOp.writeFile resolved] else [FsOp.appendFile resolved])
    let action := if mode = "append" then "appended to" else "written to"
    (.ok ("Success: " ++ toString content.length ++ " characters " ++ action ++ " " ++ resolved),
     ops)

/-- The size column of a directory listing.  Sizes below 1024 are printed in
bytes (`{size:,}` needs no grouping there); larger sizes are printed in KB
with one decimal, float formatting approximated by round-half-up. -/
def formatEntrySize (size : Nat) : String :=
  if size < 1024 then toString size ++ " bytes"
  else
    let t := (size * 10 + 512) / 1024
    toString (t / 10) ++ "." ++ toString (t % 10) ++ " KB"

/-- `ListDirectoryTool.run`. -/
def list_directory_run (resolve : String → String) (allowed : List String) (fs : FileSystem)
    (path : String) (show_hidden : Bool) : ExecOutcome × List FsOp :=
  match resolve_and_check resolve allowed path with
  | .error m => (.permissionError m, [])
  | .ok resolved =>
    if !(fs.pathExists resolved) then (.ok ("Error: directory not found: " ++ resolved), [])
    else if !(fs.isDir resolved) then (.ok ("Error: not a directory: " ++ resolved), [])
    else
      let entries := (fs.listEntries resolved).filterMap (fun ent =>
        if !show_hidden && ent.name.startsWith "." then none
        else if ent.isDir then some ("[DIR]  " ++ ent.name ++ "/")
        else some ("[FILE] " ++ ent.name ++ " (" ++ formatEntrySize ent.size ++ ")"))
      if entries.isEmpty then (.ok ("Empty directory: " ++ resolved), [FsOp.listDir resolved])
      else
        (.ok ("Contents of " ++ resolved ++ ":\n" ++ String.intercalate "\n" entries),
         [FsOp.listDir resolved])

/-- Python `str.lower`. -/
def lowerStr (s : String) : String := String.mk (s.toList.map Char.toLower)

/-- Substring test on character lists (`needle in hay`). -/
def listContainsSeq (needle hay : List Char) : Bool :=
  hay.tails.any (fun t => needle.isPrefixOf t)

/-- The inner line loop of the grep mode: collect matching lines of one file
(with their 1-based numbers), stopping once the running result count reaches
`max_results` — the match is appended before the bound is checked, exactly as
in the source. -/
def grepLines (pattern_lower filepath : String) (lines : List (Nat × String))
    (count max_results : Nat) : List String :=
  match lines with
  | [] => []
  | (i, line) :: rest =>
    if listContainsSeq pattern_lower.toList (lowerStr line).toList then
      let entry := filepath ++ ":" ++ toString i ++ ": " ++ line.trim
      if count + 1 ≥ max_results then [entry]
      else entry :: grepLines pattern_lower filepath rest (count + 1) max_results
    else grepLines pattern_lower filepath rest count max_results

/-- The outer file loop of the grep mode: skip non-files, skip files whose
read fails (`except Exception: continue`), and stop after a file once the
result count reaches `max_results`. -/
def grepFilesGo (fs : FileSystem) (pattern_lower pattern_orig : String) :
    List String → Nat → Nat → List String × List FsOp
  | [], _, _ => ([], [])
  | f :: rest, count, max_results =>
    if !(fs.isFile f) then grepFilesGo fs pattern_lower pattern_orig rest count max_results
    else
      match fs.readText f with
      | none =>
        let r := grepFilesGo fs pattern_lower pattern_orig rest count max_results
        (r.1, FsOp.readFile f :: r.2)
      | some text =>
        let lines := (text.splitOn "\n").enumFrom 1
        let found := grepLines pattern_lower f lines count max_results
        let count' := count + found.length
        if count' ≥ max_results then (found, [FsOp.readFile f])
        else
          let r := grepFilesGo fs pattern_lower pattern_orig rest count' max_results
          (found ++ r.1, FsOp.readFile f :: r.2)

/-- `SearchFilesTool.run`: glob mode or grep mode. -/
def search_files_run (resolve : String → String) (allowed : List String) (fs : FileSystem)
    (directory pattern : String) (search_content : Bool) (max_results : Nat) :
    ExecOutcome × List FsOp :=
  match resolve_and_check resolve allowed directory with
  | .error m => (.permissionError m, [])
  | .ok resolved =>
    if !search_content then
      let found := (fs.globMatches resolved pattern).take max_results
      if found.isEmpty then
        (.ok ("No files found matching '" ++ pattern ++ "' in " ++ resolved),
         [FsOp.globSearch resolved pattern])
      else
        (.ok ("Found " ++ toString found.length ++ " file(s):\n" ++
           String.intercalate "\n" found),
         [FsOp.globSearch resolved pattern])
    else
      let r := grepFilesGo fs (lowerStr pattern) pattern (fs.rglobFiles resolved) 0 max_results
      if r.1.isEmpty then (.ok ("No matches for '" ++ pattern ++ "' in " ++ resolved), r.2)
      else (.ok (String.intercalate "\n" r.1), r.2)

/-- `DeleteFileTool.run`. -/
def delete_file_run (resolve : String → String) (allowed : List String) (fs : FileSystem)
    (path : String) : ExecOutcome × List FsOp :=
  match resolve_and_check resolve allowed path with
  | .error m => (.permissionError m, [])
  | .ok resolved =>
    if !(fs.pathExists resolved) then (.ok ("Error: file not found: " ++ resolved), [])
    else if fs.isDir resolved then
      (.ok ("Error: '" ++ resolved ++ "' is a directory. Use a directory removal tool instead."),
       [])
    else (.ok ("Deleted: " ++ resolved), [FsOp.unlink resolved])

/-! ## Event classification helpers -/

/-- Is this an `iteration` event? -/
def SEvent.isIterationEvent : SEvent → Bool
  | .iteration _ => true
  | _ => false

/-- Is this an `error` event? -/
def SEvent.isErrorEvent : SEvent → Bool
  | .error _ => true
  | _ => false

/-- Is this a terminal event (`done` or `error`)? -/
def SEvent.isTerminalEvent : SEvent → Bool
  | .done _ => true
  | .error _ => true
  | _ => false

/-- Concatenation of a fragment list, the way successive `+=` appends build
an accumulation buffer. -/
def concatStrings : List String → String
  | [] => ""
  | f :: rest => f ++ concatStrings rest

/-! ## Adapter stream composition lemmas -/

/-- Processing an upstream split composes: state threads through, events
concatenate. -/
theorem anthProcess_append (st : AnthState) (l1 l2 : List AnthEvent) :
    anthProcess st (l1 ++ l2) =
      ((anthProcess (anthProcess st l1).1 l2).1,
       (anthProcess st l1).2 ++ (anthProcess (anthProcess st l1).1 l2).2) := by
  induction l1 generalizing st with
  | nil => simp [anthProcess]
  | cons e rest ih => simp [anthProcess, ih]

/-- Chunk processing composes the same way for the delta-chunk adapter. -/
theorem oaProcess_append (st : OAState) (l1 l2 : List OAChunk) :
    oaProcess st (l1 ++ l2) =
      ((oaProcess (oaProcess st l1).1 l2).1,
       (oaProcess st l1).2 ++ (oaProcess (oaProcess st l1).1 l2).2) := by
  induction l1 generalizing st with
  | nil => simp [oaProcess]
  | cons ch rest ih => simp [oaProcess, ih]

/-- A run of `input_json_delta` events only appends the concatenated
fragments to the open buffer and emits nothing. -/
theorem anthProcess_inputJsonDeltas (st : AnthState) (frags : List String) :
    anthProcess st (frags.map AnthEvent.inputJsonDelta) =
      (⟨st.current_tool_id, st.current_tool_name,
        st.current_tool_input_json ++ concatStrings frags⟩, []) := by
  induction frags generalizing st with
  | nil => simp [anthProcess, concatStrings]
  | cons f rest ih => simp [anthProcess, anthStep, ih, concatStrings, String.append_assoc]

/-- A run of arguments-only tool-call delta chunks for index 0 only appends
the concatenated fragments to entry 0's arguments buffer and emits
nothing. -/
theorem oaProcess_argFragments (i n buf : String) (ed : Bool) (frags : List String) :
    oaProcess ⟨[(0, ⟨i, n, buf⟩)], ed⟩
        (frags.map (fun f => OAChunk.chunk ⟨none, [⟨0, none, none, some f⟩], none⟩)) =
      (⟨[(0, ⟨i, n, buf ++ concatStrings frags⟩)], ed⟩, []) := by
  induction frags generalizing buf with
  | nil => simp [oaProcess, concatStrings]
  | cons f rest ih => simp [oaProcess, oaStep, oaApplyDelta, ih, concatStrings, String.append_assoc]

/-- C5: splitting a tool call's JSON arguments into fragments is invisible:
for any fragment list concatenating to `s`, the content-block adapter's
block-stop parse and the delta-chunk adapter's finish-flush parse both
produce `parseToolArguments s`, exactly the one-shot parse of `s`; an empty
accumulated buffer parses to the empty object, and a buffer that is not
valid JSON yields the empty object rather than a failure. -/
theorem c5_split_invariant_accumulation (id name s : String) (frags : List String)
    (hid : (id == "") = false) (hname : (name == "") = false)
    (hjoin : concatStrings frags = s) :
    anthropic_stream_chat
        (AnthEvent.contentBlockStart ⟨"tool_use", id, name⟩ ::
          (frags.map AnthEvent.inputJsonDelta ++ [AnthEvent.contentBlockStop])) =
      [SEvent.toolCall id name (parseToolArguments s)]
    ∧ openai_stream_chat
        (OAChunk.chunk ⟨none, [⟨0, some id, some name, none⟩], none⟩ ::
          (frags.map (fun f => OAChunk.chunk ⟨none, [⟨0, none, none, some f⟩], none⟩) ++
            [OAChunk.chunk ⟨none, [], some "tool_calls"⟩])) =
      [SEvent.toolCall id name (parseToolArguments s), SEvent.done (some "tool_calls")]
    ∧ parseToolArguments "" = Json.obj []
    ∧ (∀ bad : String, Json.parse bad = none → parseToolArguments bad = Json.obj []) := by
  subst hjoin
  refine ⟨?_, ?_, by simp [parseToolArguments], ?_⟩
  · show (anthProcess _ _).2 = _
    rw [show AnthEvent.contentBlockStart ⟨"tool_use", id, name⟩ ::
          (frags.map AnthEvent.inputJsonDelta ++ [AnthEvent.contentBlockStop]) =
        [AnthEvent.contentBlockStart ⟨"tool_use", id, name⟩] ++
          frags.map AnthEvent.inputJsonDelta ++ [AnthEvent.contentBlockStop] by simp]
    rw [anthProcess_append, anthProcess_append]
    simp [anthProcess, anthStep, anthProcess_inputJsonDeltas]
  · show (let r := oaProcess _ _; r.2 ++ _) = _
    rw [show OAChunk.chunk ⟨none, [⟨0, some id, some name, none⟩], none⟩ ::
          (frags.map (fun f => OAChunk.chunk ⟨none, [⟨0, none, none, some f⟩], none⟩) ++
            [OAChunk.chunk ⟨none, [], some "tool_calls"⟩]) =
        [OAChunk.chunk ⟨none, [⟨0, some id, some name, none⟩], none⟩] ++
          frags.map (fun f => OAChunk.chunk ⟨none, [⟨0, none, none, some f⟩], none⟩) ++
          [OAChunk.chunk ⟨none, [], some "tool_calls"⟩] by simp]
    rw [oaProcess_append, oaProcess_append]
    have h1 : oaProcess ⟨[], false⟩ [OAChunk.chunk ⟨none, [⟨0, some id, some name, none⟩], none⟩] =
        (⟨[(0, ⟨id, name, ""⟩)], false⟩, []) := by
      simp [oaProcess, oaStep, oaApplyDelta, hid, hname]
    rw [h1]
    rw [oaProcess_argFragments]
    simp [oaProcess, oaStep, oaEmitToolCalls]
  · intro bad hbad
    by_cases hempty : bad = ""
    · simp [parseToolArguments, hempty]
    · simp [parseToolArguments, hempty, hbad]

/-- C5 witness: a concrete split of an object across fragment boundaries,
plus a concrete malformed buffer. -/
theorem c5_witness :
    anthropic_stream_chat
        (AnthEvent.contentBlockStart ⟨"tool_use", "toolu_1", "read_file"⟩ ::
          (["\x7b\"pa", "th\": \"/tm", "p/a.txt\"\x7d"].map AnthEvent.inputJsonDelta ++
            [AnthEvent.contentBlockStop])) =
      [SEvent.toolCall "toolu_1" "read_file"
        (parseToolArguments "\x7b\"path\": \"/tmp/a.txt\"\x7d")] :=
  (c5_split_invariant_accumulation "toolu_1" "read_file"
    "\x7b\"path\": \"/tmp/a.txt\"\x7d" ["\x7b\"pa", "th\": \"/tm", "p/a.txt\"\x7d"]
    rfl rfl rfl).1

/-- C6: tool-failure containment in the loop body: an unknown tool name
produces a result string naming the unknown tool; a `PermissionError`
produces a result string beginning `Permission denied`; any other exception
produces a result string beginning `Tool error`; each call contributes its
`tool_result` event as its last event, and the loop continues — executing a
call list is the call's own events and messages followed by those of the
remaining calls, never a truncation. -/
theorem c6_failure_containment (cfg : AppConfig) (tools : List ToolImpl)
    (is_anthropic : Bool) (tc : ToolCallReq) (rest : List ToolCallReq) :
    (toolMapLookup tools tc.name = none →
      toolResultString tools tc = "Error: unknown tool '" ++ tc.name ++ "'")
    ∧ (∀ tool e, toolMapLookup tools tc.name = some tool →
        tool.run tc.input = ExecOutcome.permissionError e →
        toolResultString tools tc = "Permission denied: " ++ e)
    ∧ (∀ tool e, toolMapLookup tools tc.name = some tool →
        tool.run tc.input = ExecOutcome.exn e →
        toolResultString tools tc = "Tool error: " ++ e)
    ∧ (execOneTool cfg tools is_anthropic tc).1.getLast? =
        some (SEvent.toolResult tc.id tc.name (toolResultString tools tc))
    ∧ execToolCalls cfg tools is_anthropic (tc :: rest) =
        ((execOneTool cfg tools is_anthropic tc).1 ++
           (execToolCalls cfg tools is_anthropic rest).1,
         (execOneTool cfg tools is_anthropic tc).2 ++
           (execToolCalls cfg tools is_anthropic rest).2) := by
  refine ⟨?_, ?_, ?_, ?_, rfl⟩
  · intro h; simp [toolResultString, h]
  · intro tool e h hrun; simp [toolResultString, h, hrun]
  · intro tool e h hrun; simp [toolResultString, h, hrun]
  · simp [execOneTool]

/-- C6 witness: the three failure shapes at concrete calls. -/
theorem c6_witness :
    toolResultString [] ⟨"id1", "no_such_tool", Json.obj []⟩ =
        "Error: unknown tool 'no_such_tool'"
    ∧ toolResultString [⟨"rd", fun _ => ExecOutcome.permissionError "outside sandbox"⟩]
        ⟨"id2", "rd", Json.obj []⟩ = "Permission denied: outside sandbox"
    ∧ toolResultString [⟨"rd", fun _ => ExecOutcome.exn "boom"⟩]
        ⟨"id3", "rd", Json.obj []⟩ = "Tool error: boom" :=
  ⟨(c6_failure_containment ⟨1, false, []⟩ [] true ⟨"id1", "no_such_tool", Json.obj []⟩ []).1 rfl,
   (c6_failure_containment ⟨1, false, []⟩
       [⟨"rd", fun _ => ExecOutcome.permissionError "outside sandbox"⟩] true
       ⟨"id2", "rd", Json.obj []⟩ []).2.1 _ _ rfl rfl,
   (c6_failure_containment ⟨1, false, []⟩ [⟨"rd", fun _ => ExecOutcome.exn "boom"⟩] true
       ⟨"id3", "rd", Json.obj []⟩ []).2.2.1 _ _ rfl rfl⟩

/-- C7: a known tool call that requires confirmation produces, in order, the
`tool_confirmation_needed` event (with the call's id, name, input and the
formatted message), the provisional pending `tool_result`, and then the real
`tool_result` carrying the execution outcome; the history gains the
provisional tool message followed by the real result message — the gate
never prevents execution. -/
theorem c7_confirmation_gate_advisory (cfg : AppConfig) (tools : List ToolImpl)
    (is_anthropic : Bool) (tc : ToolCallReq)
    (hknown : (toolMapLookup tools tc.name).isSome = true)
    (hgated : requires_confirmation cfg tc.name tc.input = true) :
    execOneTool cfg tools is_anthropic tc =
      ([SEvent.toolConfirmationNeeded tc.id tc.name tc.input
          (format_confirmation_message tc.name tc.input),
        SEvent.toolResult tc.id tc.name waitingMessage,
        SEvent.toolResult tc.id tc.name (toolResultString tools tc)],
       [⟨"tool", Content.str waitingMessage, some tc.id, none⟩,
        if is_anthropic then
          ⟨"tool", Content.str (toolResultString tools tc), some tc.id, none⟩
        else
          ⟨"tool", Content.str (toolResultString tools tc), none, some tc.id⟩]) := by
  simp [execOneTool, hknown, hgated]

/-- C7 witness: a gated `delete_file` call still executes. -/
theorem c7_witness :
    execOneTool ⟨5, true, ["write_file", "delete_file"]⟩
        [⟨"delete_file", fun _ => ExecOutcome.ok "Deleted: /tmp/x"⟩] true
        ⟨"toolu_9", "delete_file", Json.obj [("path", Json.str "/tmp/x")]⟩ =
      ([SEvent.toolConfirmationNeeded "toolu_9" "delete_file"
          (Json.obj [("path", Json.str "/tmp/x")])
          "Delete file:\n\n`/tmp/x`\n\n⚠️ This action cannot be undone!",
        SEvent.toolResult "toolu_9" "delete_file" waitingMessage,
        SEvent.toolResult "toolu_9" "delete_file" "Deleted: /tmp/x"],
       [⟨"tool", Content.str waitingMessage, some "toolu_9", none⟩,
        ⟨"tool", Content.str "Deleted: /tmp/x", some "toolu_9", none⟩]) :=
  c7_confirmation_gate_advisory ⟨5, true, ["write_file", "delete_file"]⟩
    [⟨"delete_file", fun _ => ExecOutcome.ok "Deleted: /tmp/x"⟩] true
    ⟨"toolu_9", "delete_file", Json.obj [("path", Json.str "/tmp/x")]⟩ rfl rfl

/-- A chunk whose only payload is a `finish_reason`. -/
def mkFinishChunk (r : String) : OAChunk := OAChunk.chunk ⟨none, [], some r⟩

/-- C8: in the delta-chunk adapter, a `finish_reason == "tool_calls"` chunk
flushes every accumulated entry as a `tool_call` (arguments parsed by
`parseToolArguments`, so empty or malformed buffers become the empty
object), clears the accumulation map, and is followed by
`done{"tool_calls"}`; a terminal `"stop"` / `"length"` / `"end_turn"` chunk
flushes only the entries with a non-empty name before `done{finish_reason}`. -/
theorem c8_finish_reason_flush (cs : List OAChunk) :
    (openai_stream_chat (cs ++ [mkFinishChunk "tool_calls"]) =
        (oaProcess ⟨[], false⟩ cs).2 ++
          oaEmitToolCalls (oaProcess ⟨[], false⟩ cs).1.tool_calls_acc ++
          [SEvent.done (some "tool_calls")])
    ∧ (∀ st : OAState, (oaStep st (mkFinishChunk "tool_calls")).1.tool_calls_acc = [])
    ∧ (∀ r : String, r = "stop" ∨ r = "length" ∨ r = "end_turn" →
        openai_stream_chat (cs ++ [mkFinishChunk r]) =
          (oaProcess ⟨[], false⟩ cs).2 ++
            oaEmitToolCalls
              ((oaProcess ⟨[], false⟩ cs).1.tool_calls_acc.filter
                (fun p => !(p.2.name == ""))) ++
            [SEvent.done (some r)]) := by
  refine ⟨?_, ?_, ?_⟩
  · show (let r := oaProcess _ _; r.2 ++ _) = _
    rw [oaProcess_append]
    simp [oaProcess, oaStep, mkFinishChunk]
  · intro st
    simp [oaStep, mkFinishChunk]
  · rintro r (rfl | rfl | rfl) <;>
      · show (let q := oaProcess _ _; q.2 ++ _) = _
        rw [oaProcess_append]
        simp [oaProcess, oaStep, mkFinishChunk]

/-- C8 witness: one accumulated entry with an unnamed sibling; the
tool-invocation finish flushes both, the stop finish only the named one. -/
theorem c8_witness :
    openai_stream_chat
        ([OAChunk.chunk ⟨none, [⟨0, some "call_1", some "list_directory", some ""⟩,
            ⟨1, none, none, some "\x7b"⟩], none⟩] ++ [mkFinishChunk "tool_calls"]) =
      [SEvent.toolCall "call_1" "list_directory" (Json.obj []),
       SEvent.toolCall "" "" (Json.obj []),
       SEvent.done (some "tool_calls")]
    ∧ openai_stream_chat
        ([OAChunk.chunk ⟨none, [⟨0, some "call_1", some "list_directory", some ""⟩,
            ⟨1, none, none, some "\x7b"⟩], none⟩] ++ [mkFinishChunk "stop"]) =
      [SEvent.toolCall "call_1" "list_directory" (Json.obj []),
       SEvent.done (some "stop")] :=
  ⟨(c8_finish_reason_flush
      [OAChunk.chunk ⟨none, [⟨0, some "call_1", some "list_directory", some ""⟩,
        ⟨1, none, none, some "\x7b"⟩], none⟩]).1,
   (c8_finish_reason_flush
      [OAChunk.chunk ⟨none, [⟨0, some "call_1", some "list_directory", some ""⟩,
        ⟨1, none, none, some "\x7b"⟩], none⟩]).2.2 "stop" (Or.inl rfl)⟩

/-! ## C2: terminal-event discipline of the two adapters -/

/-- Is this upstream Anthropic event a message-stop marker? -/
def AnthEvent.isMessageStop : AnthEvent → Bool
  | .messageStop _ => true
  | _ => false

/-- Does this chunk carry a finish reason the delta-chunk adapter
recognizes as terminal? -/
def OAChunk.isRecognizedFinish : OAChunk → Bool
  | .noChoices => false
  | .chunk c =>
    c.finish_reason == some "tool_calls" || c.finish_reason == some "stop" ||
      c.finish_reason == some "length" || c.finish_reason == some "end_turn"

/-- One content-block step emits a terminal event exactly on message stop. -/
theorem anthStep_terminal_count (st : AnthState) (e : AnthEvent) :
    ((anthStep st e).2.countP SEvent.isTerminalEvent) =
      (if e.isMessageStop then 1 else 0) := by
  cases e with
  | contentBlockStart b =>
    by_cases h : b.btype = "tool_use" <;>
      simp [anthStep, AnthEvent.isMessageStop, h, SEvent.isTerminalEvent]
  | textDelta t => simp [anthStep, AnthEvent.isMessageStop, SEvent.isTerminalEvent]
  | inputJsonDelta f => simp [anthStep, AnthEvent.isMessageStop]
  | contentBlockStop =>
    cases h : st.current_tool_name <;>
      simp [anthStep, AnthEvent.isMessageStop, h, SEvent.isTerminalEvent]
  | messageStop r => simp [anthStep, AnthEvent.isMessageStop, SEvent.isTerminalEvent]

/-- The content-block adapter's terminal-event count equals the number of
upstream message-stop markers. -/
theorem anthProcess_terminal_count (st : AnthState) (l : List AnthEvent) :
    ((anthProcess st l).2.countP SEvent.isTerminalEvent) =
      l.countP AnthEvent.isMessageStop := by
  induction l generalizing st with
  | nil => simp [anthProcess]
  | cons e rest ih =>
    simp [anthProcess, List.countP_append, List.countP_cons, anthStep_terminal_count, ih]
    by_cases h : e.isMessageStop <;> simp [h] <;> omega

/-- Flushing the accumulation map emits only (non-terminal) `tool_call`
events. -/
theorem oaEmitToolCalls_terminal_count (acc : List (Nat × OAEntry)) :
    (oaEmitToolCalls acc).countP SEvent.isTerminalEvent = 0 := by
  induction acc with
  | nil => rfl
  | cons p rest ih =>
    simp [oaEmitToolCalls, List.countP_cons, SEvent.isTerminalEvent, ih]

/-- The immediately-forwarded content delta of a chunk is never terminal. -/
theorem textEvents_terminal_count (cc : Option String) :
    ((match cc with
      | some t => if t == "" then [] else [SEvent.textDelta t]
      | none => ([] : List SEvent)).countP SEvent.isTerminalEvent) = 0 := by
  cases cc with
  | none => rfl
  | some t => by_cases h : t == "" <;> simp [h, SEvent.isTerminalEvent]

/-- One delta-chunk step emits a terminal event exactly on a recognized
finish reason, and sets `emitted_done` accordingly. -/
theorem oaStep_terminal_count (st : OAState) (ch : OAChunk) :
    ((oaStep st ch).2.countP SEvent.isTerminalEvent =
        (if ch.isRecognizedFinish then 1 else 0))
    ∧ ((oaStep st ch).1.emitted_done = (st.emitted_done || ch.isRecognizedFinish)) := by
  cases ch with
  | noChoices => simp [oaStep, OAChunk.isRecognizedFinish]
  | chunk c =>
    by_cases h1 : c.finish_reason == some "tool_calls"
    · constructor
      · simp only [oaStep, h1, if_pos, List.countP_append, textEvents_terminal_count,
          oaEmitToolCalls_terminal_count, List.countP_cons, List.countP_nil]
        simp [OAChunk.isRecognizedFinish, h1, SEvent.isTerminalEvent]
      · simp only [oaStep, h1, if_pos]
        simp [OAChunk.isRecognizedFinish, h1]
    · by_cases h2 : (c.finish_reason == some "stop" || c.finish_reason == some "length" ||
          c.finish_reason == some "end_turn")
      · constructor
        · simp only [oaStep, h1, h2, if_pos, if_neg, Bool.false_eq_true, not_false_iff,
            List.countP_append, textEvents_terminal_count, oaEmitToolCalls_terminal_count,
            List.countP_cons, List.countP_nil]
          simp [OAChunk.isRecognizedFinish, h1, h2, SEvent.isTerminalEvent, Bool.or_assoc]
        · simp only [oaStep, h1, h2, if_pos, if_neg, Bool.false_eq_true, not_false_iff]
          simp [OAChunk.isRecognizedFinish, h1, h2, Bool.or_assoc]
      · have hir : OAChunk.isRecognizedFinish (OAChunk.chunk c) = false := by
          have h2' : (c.finish_reason == some "stop" || c.finish_reason == some "length" ||
              c.finish_reason == some "end_turn") = false := Bool.eq_false_iff.mpr h2
          simp only [Bool.or_eq_false_iff] at h2'
          simp only [OAChunk.isRecognizedFinish, Bool.or_eq_false_iff]
          exact ⟨⟨⟨Bool.eq_false_iff.mpr h1, h2'.1.1⟩, h2'.1.2⟩, h2'.2⟩
        constructor
        · simp only [oaStep, h1, h2, if_neg, Bool.false_eq_true, not_false_iff]
          rw [hir]
          simpa using textEvents_terminal_count c.content
        · simp only [oaStep, h1, h2, if_neg, Bool.false_eq_true, not_false_iff]
          simp [hir]

/-- Across a chunk list: terminal events counted, and the `emitted_done`
flag is the disjunction with "some chunk carried a recognized finish". -/
theorem oaProcess_terminal_count (st : OAState) (l : List OAChunk) :
    ((oaProcess st l).2.countP SEvent.isTerminalEvent =
        l.countP OAChunk.isRecognizedFinish)
    ∧ ((oaProcess st l).1.emitted_done = (st.emitted_done || l.any OAChunk.isRecognizedFinish)) := by
  induction l generalizing st with
  | nil => simp [oaProcess]
  | cons ch rest ih =>
    have hstep := oaStep_terminal_count st ch
    have hrest := ih (oaStep st ch).1
    constructor
    · simp [oaProcess, List.countP_append, List.countP_cons, hstep.1, hrest.1]
      by_cases h : ch.isRecognizedFinish <;> simp [h] <;> omega
    · simp [oaProcess, hrest.2, hstep.2, Bool.or_assoc]

/-- C2 counterexample: an upstream stream that ends without a message-stop
marker (here: the empty stream, accepted by `async with` and exhausted
immediately) makes the content-block adapter end with no `done` and no
`error` — zero terminal events, not exactly one. -/
theorem c2_counterexample :
    anthropic_stream_chat [] = []
    ∧ (anthropic_stream_chat []).countP SEvent.isTerminalEvent ≠ 1 :=
  ⟨rfl, by decide⟩

/-- C2 (amended): the delta-chunk adapter yields exactly one terminal event
for every upstream chunk sequence with at most one recognized finish marker,
synthesizing `done{"stop"}` as the last event when none arrives; the
content-block adapter yields exactly one terminal event exactly when the
upstream carries exactly one message-stop marker — in general its
terminal-event count equals the upstream message-stop count, so a stream
ending without message-stop produces no terminal event at all. -/
theorem c2_terminal_event_discipline :
    (∀ cs : List OAChunk, cs.countP OAChunk.isRecognizedFinish ≤ 1 →
        (openai_stream_chat cs).countP SEvent.isTerminalEvent = 1)
    ∧ (∀ cs : List OAChunk, cs.countP OAChunk.isRecognizedFinish = 0 →
        (openai_stream_chat cs).getLast? = some (SEvent.done (some "stop")))
    ∧ (∀ es : List AnthEvent, (anthropic_stream_chat es).countP SEvent.isTerminalEvent =
        es.countP AnthEvent.isMessageStop) := by
  refine ⟨?_, ?_, ?_⟩
  · intro cs hle
    have h := oaProcess_terminal_count ⟨[], false⟩ cs
    unfold openai_stream_chat
    cases hany : cs.any OAChunk.isRecognizedFinish with
    | false =>
      have hcount : cs.countP OAChunk.isRecognizedFinish = 0 := by
        refine List.countP_eq_zero.mpr ?_
        intro a ha hrec
        have := (List.any_eq_true).mpr ⟨a, ha, hrec⟩
        rw [hany] at this
        exact Bool.false_ne_true this
      rw [List.countP_append, h.1, hcount]
      simp [h.2, hany, SEvent.isTerminalEvent]
    | true =>
      have hpos : 0 < cs.countP OAChunk.isRecognizedFinish := by
        obtain ⟨a, ha, hrec⟩ := List.any_eq_true.mp hany
        exact List.countP_pos.mpr ⟨a, ha, hrec⟩
      rw [List.countP_append, h.1]
      simp [h.2, hany]
      omega
  · intro cs hzero
    have h := oaProcess_terminal_count ⟨[], false⟩ cs
    have hany : cs.any OAChunk.isRecognizedFinish = false := by
      cases hany : cs.any OAChunk.isRecognizedFinish with
      | false => rfl
      | true =>
        obtain ⟨a, ha, hrec⟩ := List.any_eq_true.mp hany
        have hpos : 0 < cs.countP OAChunk.isRecognizedFinish :=
          List.countP_pos.mpr ⟨a, ha, hrec⟩
        omega
    unfold openai_stream_chat
    simp [h.2, hany]
  · intro es
    exact anthProcess_terminal_count ⟨none, none, ""⟩ es

/-- C2 witness: a finishing chunk stream, a finish-free chunk stream (the
synthetic `done`), and a message-stopped block stream, each with exactly one
terminal event. -/
theorem c2_witness :
    (openai_stream_chat [mkFinishChunk "stop"]).countP SEvent.isTerminalEvent = 1
    ∧ (openai_stream_chat
        [OAChunk.chunk ⟨some "hi", [], none⟩]).getLast? = some (SEvent.done (some "stop"))
    ∧ (anthropic_stream_chat
        [AnthEvent.textDelta "hi", AnthEvent.messageStop (some "end_turn")]).countP
          SEvent.isTerminalEvent = 1 :=
  ⟨c2_terminal_event_discipline.1 [mkFinishChunk "stop"] (by decide),
   c2_terminal_event_discipline.2.1 [OAChunk.chunk ⟨some "hi", [], none⟩] (by decide),
   (c2_terminal_event_discipline.2.2
    [AnthEvent.textDelta "hi", AnthEvent.messageStop (some "end_turn")]).trans (by decide)⟩

/-! ## C3: round-tripping an assistant turn's tool calls through the wire
formats -/

/-- C3 counterexample: an assistant turn with two tool calls, projected the
way the loop and the delta-chunk adapter project it (plain-text assistant
history message, then `_convert_content_for_openai`), loses both calls: the
wire messages are just the system prompt and the bare text, and no id can be
read back — the claimed round-trip preservation fails for the
OpenAI-compatible provider. -/
theorem c3_counterexample :
    to_openai_messages (fun _ => "") "sys"
        [assistant_turn_message false "hi"
          [⟨"id1", "list_directory", Json.obj []⟩, ⟨"id2", "read_file", Json.obj []⟩]] =
      [⟨"system", none, OAContent.str "sys"⟩, ⟨"assistant", none, OAContent.str "hi"⟩]
    ∧ (((to_openai_messages (fun _ => "") "sys"
        [assistant_turn_message false "hi"
          [⟨"id1", "list_directory", Json.obj []⟩, ⟨"id2", "read_file", Json.obj []⟩]]).flatMap
          openaiWireToolCalls).map ToolCallReq.id) ≠ ["id1", "id2"] :=
  ⟨rfl, by decide⟩

/-- C3 (amended): for the content-block (Anthropic) provider the round-trip
is lossless — the loop's assistant-turn append plus `_to_anthropic_messages`
preserves both calls' id, name and input, in order, recoverable from the
wire message's `tool_use` blocks.  For the delta-chunk (OpenAI-compatible)
provider the loop stores the assistant turn as plain text, so the outbound
wire message carries no tool-call identity at all and the round-trip
preserves nothing. -/
theorem c3_roundtrip_by_provider (text system : String) (tc1 tc2 : ToolCallReq)
    (extract_pdf : String → String) :
    (to_anthropic_messages [assistant_turn_message true text [tc1, tc2]]).map
        anthropicWireToolCalls = [[tc1, tc2]]
    ∧ to_openai_messages extract_pdf system [assistant_turn_message false text [tc1, tc2]] =
        [⟨"system", none, OAContent.str system⟩, ⟨"assistant", none, OAContent.str text⟩]
    ∧ (to_openai_messages extract_pdf system
        [assistant_turn_message false text [tc1, tc2]]).map openaiWireToolCalls = [[], []] := by
  refine ⟨?_, ?_, ?_⟩
  · by_cases h : text = "" <;>
      simp [to_anthropic_messages, assistant_turn_message, anthropicWireToolCalls, h]
  · simp [to_openai_messages, assistant_turn_message, convert_content_for_openai]
  · simp [to_openai_messages, assistant_turn_message, openaiWireToolCalls]

/-- C3 witness: the Anthropic-side round-trip at a concrete two-call turn. -/
theorem c3_witness :
    (to_anthropic_messages
        [assistant_turn_message true "ok"
          [⟨"toolu_1", "read_file", Json.obj [("path", Json.str "/tmp/a")]⟩,
           ⟨"toolu_2", "delete_file", Json.obj [("path", Json.str "/tmp/b")]⟩]]).map
        anthropicWireToolCalls =
      [[⟨"toolu_1", "read_file", Json.obj [("path", Json.str "/tmp/a")]⟩,
        ⟨"toolu_2", "delete_file", Json.obj [("path", Json.str "/tmp/b")]⟩]] :=
  (c3_roundtrip_by_provider "ok" "sys"
    ⟨"toolu_1", "read_file", Json.obj [("path", Json.str "/tmp/a")]⟩
    ⟨"toolu_2", "delete_file", Json.obj [("path", Json.str "/tmp/b")]⟩ (fun _ => "")).1

/-! ## C4: matching tool messages to tool_use ids -/

/-- Number of tool-role messages in `msgs` carrying `id` under either
correlation key (`tool_use_id` or `tool_call_id`). -/
def toolMsgCountFor (msgs : List Msg) (id : String) : Nat :=
  msgs.countP (fun m =>
    m.role == "tool" && (m.tool_use_id == some id || m.tool_call_id == some id))

/-- Counting tool messages distributes over history concatenation. -/
theorem toolMsgCountFor_append (a b : List Msg) (id : String) :
    toolMsgCountFor (a ++ b) id = toolMsgCountFor a id + toolMsgCountFor b id :=
  List.countP_append _ _ _

/-- The messages one tool call appends all carry that call's id: two of them
when the call is known and gated (the provisional pending message plus the
real result), one otherwise. -/
theorem execOneTool_toolMsgCount (cfg : AppConfig) (tools : List ToolImpl)
    (is_anthropic : Bool) (tc : ToolCallReq) (id : String) :
    toolMsgCountFor (execOneTool cfg tools is_anthropic tc).2 id =
      if tc.id = id then
        (if (toolMapLookup tools tc.name).isSome && requires_confirmation cfg tc.name tc.input
         then 2 else 1)
      else 0 := by
  by_cases hg : ((toolMapLookup tools tc.name).isSome &&
      requires_confirmation cfg tc.name tc.input) = true <;>
    by_cases hid : tc.id = id <;>
      cases is_anthropic <;>
        simp [execOneTool, toolMsgCountFor, List.countP_cons, hg, hid]

/-- A call list none of whose ids is `id` appends no tool message carrying
`id`. -/
theorem execToolCalls_countFor_zero (cfg : AppConfig) (tools : List ToolImpl)
    (is_anthropic : Bool) (tcs : List ToolCallReq) (id : String)
    (h : ∀ t ∈ tcs, t.id ≠ id) :
    toolMsgCountFor (execToolCalls cfg tools is_anthropic tcs).2 id = 0 := by
  induction tcs with
  | nil => rfl
  | cons t rest ih =>
    have hone := execOneTool_toolMsgCount cfg tools is_anthropic t id
    rw [if_neg (h t (List.mem_cons_self t rest))] at hone
    show toolMsgCountFor ((execOneTool cfg tools is_anthropic t).2 ++
      (execToolCalls cfg tools is_anthropic rest).2) id = 0
    rw [toolMsgCountFor_append, hone, ih (fun u hu => h u (List.mem_cons_of_mem t hu))]

/-- C4 counterexample: a turn with a single gated `write_file` call appends
two tool messages carrying its id — the provisional pending message and the
real result — not exactly one. -/
theorem c4_counterexample :
    toolMsgCountFor
        (run_agent ⟨1, true, ["write_file", "delete_file"]⟩
          ⟨true, fun _ =>
            [SEvent.toolCall "id1" "write_file"
              (Json.obj [("path", Json.str "/tmp/x"), ("content", Json.str "hi")]),
             SEvent.done (some "tool_use")]⟩
          [⟨"write_file", fun _ => ExecOutcome.ok "Success"⟩] []).2 "id1" = 2
    ∧ (2 : Nat) ≠ 1 :=
  ⟨rfl, by decide⟩

/-- C4 (amended): in the history segment a turn's tool phase appends, a tool
call whose id is unique within the turn is matched by exactly one subsequent
tool message when it is ungated or unknown, and by exactly two (the
provisional pending message plus the real result, both carrying its id) when
it is known and gated. -/
theorem c4_tool_message_matching (cfg : AppConfig) (tools : List ToolImpl)
    (is_anthropic : Bool) (tcs : List ToolCallReq) (tc : ToolCallReq)
    (hmem : tc ∈ tcs)
    (huniq : (tcs.map ToolCallReq.id).count tc.id = 1) :
    toolMsgCountFor (execToolCalls cfg tools is_anthropic tcs).2 tc.id =
      if (toolMapLookup tools tc.name).isSome && requires_confirmation cfg tc.name tc.input
      then 2 else 1 := by
  induction tcs with
  | nil => cases hmem
  | cons t rest ih =>
    have hsplit : toolMsgCountFor (execToolCalls cfg tools is_anthropic (t :: rest)).2 tc.id =
        toolMsgCountFor (execOneTool cfg tools is_anthropic t).2 tc.id +
          toolMsgCountFor (execToolCalls cfg tools is_anthropic rest).2 tc.id :=
      toolMsgCountFor_append _ _ _
    rcases List.mem_cons.mp hmem with rfl | hmem'
    · have hrest0 : (rest.map ToolCallReq.id).count tc.id = 0 := by
        rw [List.map_cons, List.count_cons] at huniq
        simp at huniq
        omega
      have hnone : ∀ u ∈ rest, u.id ≠ tc.id := by
        intro u hu heq
        exact (List.count_eq_zero.mp hrest0) (List.mem_map.mpr ⟨u, hu, heq⟩)
      rw [hsplit, execOneTool_toolMsgCount, if_pos rfl,
        execToolCalls_countFor_zero cfg tools is_anthropic rest tc.id hnone]
      exact Nat.add_zero _
    · have hin : tc.id ∈ rest.map ToolCallReq.id := List.mem_map.mpr ⟨tc, hmem', rfl⟩
      have hpos : 0 < (rest.map ToolCallReq.id).count tc.id := List.count_pos_iff.mpr hin
      have hne : t.id ≠ tc.id := by
        intro heq
        rw [List.map_cons, List.count_cons] at huniq
        simp [heq] at huniq
        omega
      have huniq' : (rest.map ToolCallReq.id).count tc.id = 1 := by
        rw [List.map_cons, List.count_cons] at huniq
        simp [Ne.symm hne] at huniq
        omega
      rw [hsplit, execOneTool_toolMsgCount, if_neg (fun h => hne h), ih hmem' huniq']
      exact Nat.zero_add _

/-- C4 witness: a two-call turn — the gated known `write_file` call's unique
id appears on exactly two appended tool messages. -/
theorem c4_witness :
    toolMsgCountFor
        (execToolCalls ⟨5, true, ["write_file"]⟩
          [⟨"write_file", fun _ => ExecOutcome.ok "done"⟩] true
          [⟨"a1", "read_file", Json.obj []⟩, ⟨"a2", "write_file", Json.obj []⟩]).2 "a2" = 2 :=
  c4_tool_message_matching ⟨5, true, ["write_file"]⟩
    [⟨"write_file", fun _ => ExecOutcome.ok "done"⟩] true
    [⟨"a1", "read_file", Json.obj []⟩, ⟨"a2", "write_file", Json.obj []⟩]
    ⟨"a2", "write_file", Json.obj []⟩
    (List.mem_cons_of_mem _ (List.mem_cons_self _ _)) (by decide)

/-! ## C10: the caller's history is never mutated -/

/-- The loop only ever appends to its working history. -/
theorem runAgentGo_appends_only (cfg : AppConfig) (adapter : AdapterModel)
    (tools : List ToolImpl) :
    ∀ (rem iter : Nat) (working : List Msg),
      ∃ appended, (runAgentGo cfg adapter tools rem iter working).2 = working ++ appended := by
  intro rem
  induction rem with
  | zero => exact fun iter working => ⟨[], by simp [runAgentGo]⟩
  | succ rem ih =>
    intro iter working
    simp only [runAgentGo]
    split
    · exact ⟨[], by simp⟩
    · split
      · exact ⟨[assistant_turn_message adapter.is_anthropic
            (consumeEvents (adapter.stream_chat working)).assistant_text
            (consumeEvents (adapter.stream_chat working)).tool_calls], rfl⟩
      · obtain ⟨t, hrec⟩ := ih (iter + 1)
          ((working ++ [assistant_turn_message adapter.is_anthropic
              (consumeEvents (adapter.stream_chat working)).assistant_text
              (consumeEvents (adapter.stream_chat working)).tool_calls]) ++
            (execToolCalls cfg tools adapter.is_anthropic
              (consumeEvents (adapter.stream_chat working)).tool_calls).2)
        refine ⟨[assistant_turn_message adapter.is_anthropic
            (consumeEvents (adapter.stream_chat working)).assistant_text
            (consumeEvents (adapter.stream_chat working)).tool_calls] ++
          (execToolCalls cfg tools adapter.is_anthropic
            (consumeEvents (adapter.stream_chat working)).tool_calls).2 ++ t, ?_⟩
        rw [hrec]
        simp [List.append_assoc]

/-- C10: `run_agent` copies the caller's list (`list(messages)`) and only
appends to the copy: the caller's `messages` stay intact — they are
recoverable unchanged, same length and same elements, as the leading segment
of the final working history, which is `messages` plus appended turns. -/
theorem c10_no_caller_mutation (cfg : AppConfig) (adapter : AdapterModel)
    (tools : List ToolImpl) (messages : List Msg) :
    (run_agent cfg adapter tools messages).2.take messages.length = messages
    ∧ ∃ appended, (run_agent cfg adapter tools messages).2 = messages ++ appended := by
  obtain ⟨appended, happ⟩ :=
    runAgentGo_appends_only cfg adapter tools cfg.max_iterations 0 messages
  refine ⟨?_, ⟨appended, happ⟩⟩
  rw [show (run_agent cfg adapter tools messages).2 =
      (runAgentGo cfg adapter tools cfg.max_iterations 0 messages).2 from rfl, happ]
  exact List.take_left messages appended

/-! ## C1: the iteration ceiling -/

/-- When the consume step ends cleanly, the forwarded events contain no
`iteration` and no `error` events (the loop itself injects the former, and
on the latter it would have stopped). -/
theorem consumeEvents_clean_forwarded (evs : List SEvent)
    (h : (consumeEvents evs).errored = false) :
    (consumeEvents evs).forwarded.filter SEvent.isIterationEvent = []
    ∧ (consumeEvents evs).forwarded.filter SEvent.isErrorEvent = [] := by
  induction evs with
  | nil => exact ⟨rfl, rfl⟩
  | cons e rest ih =>
    cases e with
    | textDelta t =>
      simp only [consumeEvents] at h ⊢
      have := ih h
      simp [SEvent.isIterationEvent, SEvent.isErrorEvent, this.1, this.2]
    | toolCall i n inp =>
      simp only [consumeEvents] at h ⊢
      have := ih h
      simp [SEvent.isIterationEvent, SEvent.isErrorEvent, this.1, this.2]
    | done r =>
      simp only [consumeEvents] at h ⊢
      have := ih h
      simp [SEvent.isIterationEvent, SEvent.isErrorEvent, this.1, this.2]
    | error m => simp [consumeEvents] at h
    | iteration n =>
      simp only [consumeEvents] at h ⊢
      exact ih h
    | toolConfirmationNeeded a b c d =>
      simp only [consumeEvents] at h ⊢
      exact ih h
    | toolResult a b c =>
      simp only [consumeEvents] at h ⊢
      exact ih h

/-- Tool execution emits only confirmation and result events — never
`iteration`, never `error`. -/
theorem execToolCalls_events_clean (cfg : AppConfig) (tools : List ToolImpl)
    (is_anthropic : Bool) (tcs : List ToolCallReq) :
    (execToolCalls cfg tools is_anthropic tcs).1.filter SEvent.isIterationEvent = []
    ∧ (execToolCalls cfg tools is_anthropic tcs).1.filter SEvent.isErrorEvent = [] := by
  induction tcs with
  | nil => exact ⟨rfl, rfl⟩
  | cons tc rest ih =>
    have hone : (execOneTool cfg tools is_anthropic tc).1.filter SEvent.isIterationEvent = []
        ∧ (execOneTool cfg tools is_anthropic tc).1.filter SEvent.isErrorEvent = [] := by
      by_cases hg : ((toolMapLookup tools tc.name).isSome &&
          requires_confirmation cfg tc.name tc.input) = true <;>
        simp [execOneTool, hg, SEvent.isIterationEvent, SEvent.isErrorEvent]
    have hdef : (execToolCalls cfg tools is_anthropic (tc :: rest)).1 =
        (execOneTool cfg tools is_anthropic tc).1 ++
          (execToolCalls cfg tools is_anthropic rest).1 := rfl
    constructor
    · rw [hdef, List.filter_append, hone.1, ih.1]; rfl
    · rw [hdef, List.filter_append, hone.2, ih.2]; rfl

/-- With an adapter that always ends cleanly with at least one tool call,
running with `rem` remaining iterations from counter `iter` emits exactly the
iteration events `iter+1 … iter+rem`, exactly one error event — the ceiling
message — and that error is the final event. -/
theorem runAgentGo_ceiling (cfg : AppConfig) (adapter : AdapterModel) (tools : List ToolImpl)
    (hstream : ∀ hist, (consumeEvents (adapter.stream_chat hist)).errored = false ∧
      (consumeEvents (adapter.stream_chat hist)).tool_calls.isEmpty = false) :
    ∀ (rem iter : Nat) (working : List Msg),
      (runAgentGo cfg adapter tools rem iter working).1.filter SEvent.isIterationEvent =
        (List.range rem).map (fun k => SEvent.iteration (iter + k + 1))
      ∧ (runAgentGo cfg adapter tools rem iter working).1.filter SEvent.isErrorEvent =
          [SEvent.error (maxIterationsMessage cfg.max_iterations)]
      ∧ (runAgentGo cfg adapter tools rem iter working).1.getLast? =
          some (SEvent.error (maxIterationsMessage cfg.max_iterations)) := by
  intro rem
  induction rem with
  | zero =>
    intro iter working
    refine ⟨?_, ?_, rfl⟩ <;>
      simp [runAgentGo, SEvent.isIterationEvent, SEvent.isErrorEvent]
  | succ rem ih =>
    intro iter working
    have hs := hstream working
    have hclean := consumeEvents_clean_forwarded (adapter.stream_chat working) hs.1
    have hexec := execToolCalls_events_clean cfg tools adapter.is_anthropic
      (consumeEvents (adapter.stream_chat working)).tool_calls
    have hrec := ih (iter + 1)
      ((working ++ [assistant_turn_message adapter.is_anthropic
          (consumeEvents (adapter.stream_chat working)).assistant_text
          (consumeEvents (adapter.stream_chat working)).tool_calls]) ++
        (execToolCalls cfg tools adapter.is_anthropic
          (consumeEvents (adapter.stream_chat working)).tool_calls).2)
    have hshape : (runAgentGo cfg adapter tools (rem + 1) iter working).1 =
        (SEvent.iteration (iter + 1) :: (consumeEvents (adapter.stream_chat working)).forwarded) ++
          (execToolCalls cfg tools adapter.is_anthropic
            (consumeEvents (adapter.stream_chat working)).tool_calls).1 ++
          (runAgentGo cfg adapter tools rem (iter + 1)
            ((working ++ [assistant_turn_message adapter.is_anthropic
                (consumeEvents (adapter.stream_chat working)).assistant_text
                (consumeEvents (adapter.stream_chat working)).tool_calls]) ++
              (execToolCalls cfg tools adapter.is_anthropic
                (consumeEvents (adapter.stream_chat working)).tool_calls).2)).1 := by
      simp only [runAgentGo, hs.1, hs.2, Bool.false_eq_true, if_false]
    refine ⟨?_, ?_, ?_⟩
    · rw [hshape]
      simp only [List.filter_append, List.filter_cons]
      rw [hclean.1, hexec.1, hrec.1]
      simp [SEvent.isIterationEvent, List.range_succ_eq_map, Function.comp]
      intro a ha
      omega
    · rw [hshape]
      simp only [List.filter_append, List.filter_cons]
      rw [hclean.2, hexec.2, hrec.2.1]
      simp [SEvent.isErrorEvent]
    · rw [hshape]
      have hne : (runAgentGo cfg adapter tools rem (iter + 1)
          ((working ++ [assistant_turn_message adapter.is_anthropic
              (consumeEvents (adapter.stream_chat working)).assistant_text
              (consumeEvents (adapter.stream_chat working)).tool_calls]) ++
            (execToolCalls cfg tools adapter.is_anthropic
              (consumeEvents (adapter.stream_chat working)).tool_calls).2)).1 ≠ [] := by
        intro hnil
        have := hrec.2.2
        rw [hnil] at this
        cases this
      rw [List.getLast?_append_of_ne_nil _ hne]
      exact hrec.2.2

/-- C1: for any ceiling `N ≥ 1` and any adapter whose streams always end
cleanly carrying at least one tool call, `run_agent` emits exactly the
iteration events numbered `1 … N` (so never an `(N+1)`-th), exactly one
error event — `Max iterations (N) reached` — and that error is the last
event emitted. -/
theorem c1_iteration_ceiling (cfg : AppConfig) (adapter : AdapterModel)
    (tools : List ToolImpl) (messages : List Msg)
    (hN : 1 ≤ cfg.max_iterations)
    (hstream : ∀ hist, (consumeEvents (adapter.stream_chat hist)).errored = false ∧
      (consumeEvents (adapter.stream_chat hist)).tool_calls.isEmpty = false) :
    (run_agent cfg adapter tools messages).1.filter SEvent.isIterationEvent =
      (List.range cfg.max_iterations).map (fun k => SEvent.iteration (k + 1))
    ∧ (run_agent cfg adapter tools messages).1.filter SEvent.isErrorEvent =
        [SEvent.error (maxIterationsMessage cfg.max_iterations)]
    ∧ (run_agent cfg adapter tools messages).1.getLast? =
        some (SEvent.error (maxIterationsMessage cfg.max_iterations)) := by
  have h := runAgentGo_ceiling cfg adapter tools hstream cfg.max_iterations 0 messages
  refine ⟨?_, h.2.1, h.2.2⟩
  rw [show (run_agent cfg adapter tools messages).1 =
      (runAgentGo cfg adapter tools cfg.max_iterations 0 messages).1 from rfl, h.1]
  simp

/-- C1 witness: ceiling 2, an adapter that always returns one tool call —
iterations 1 and 2, then the ceiling error last. -/
theorem c1_witness :
    (run_agent ⟨2, false, []⟩
        ⟨false, fun _ => [SEvent.toolCall "t1" "x" (Json.obj []),
          SEvent.done (some "tool_calls")]⟩ [] []).1.filter SEvent.isIterationEvent =
      [SEvent.iteration 1, SEvent.iteration 2]
    ∧ (run_agent ⟨2, false, []⟩
        ⟨false, fun _ => [SEvent.toolCall "t1" "x" (Json.obj []),
          SEvent.done (some "tool_calls")]⟩ [] []).1.getLast? =
        some (SEvent.error "Max iterations (2) reached") := by
  have h := c1_iteration_ceiling ⟨2, false, []⟩
    ⟨false, fun _ => [SEvent.toolCall "t1" "x" (Json.obj []),
      SEvent.done (some "tool_calls")]⟩ [] [] (by decide)
    (fun hist => ⟨rfl, rfl⟩)
  exact ⟨h.1, h.2.2⟩

/-! ## C9: the filesystem sandbox gate -/

/-- `isPrefixOf` is reflexive for character lists. -/
theorem isPrefixOf_self (l : List Char) : l.isPrefixOf l = true := by
  induction l with
  | nil => rfl
  | cons c rest ih => simp [List.isPrefixOf, ih]

/-- A list is a leading piece of itself followed by anything. -/
theorem isPrefixOf_append_self (l rest : List Char) : l.isPrefixOf (l ++ rest) = true := by
  induction l with
  | nil => simp [List.isPrefixOf]
  | cons c lt ih => simp [List.isPrefixOf, ih]

/-- Every path splits as its separator-stripped form plus trailing
separators. -/
theorem rstripSlashL_decomp (l : List Char) :
    ∃ k, l = rstripSlashL l ++ List.replicate k '/' := by
  refine ⟨(l.reverse.takeWhile (fun c => c == '/')).length, ?_⟩
  have hsplit := List.takeWhile_append_dropWhile (fun c => c == '/') l.reverse
  have hrep : (l.reverse.takeWhile (fun c => c == '/')).reverse =
      List.replicate (l.reverse.takeWhile (fun c => c == '/')).length '/' := by
    rw [List.eq_replicate_iff]
    refine ⟨by simp, ?_⟩
    intro b hb
    have := List.mem_takeWhile_imp (List.mem_reverse.mp hb)
    simpa using this
  calc l = l.reverse.reverse := (List.reverse_reverse l).symm
    _ = (l.reverse.takeWhile (fun c => c == '/') ++
          l.reverse.dropWhile (fun c => c == '/')).reverse := by rw [hsplit]
    _ = rstripSlashL l ++ (l.reverse.takeWhile (fun c => c == '/')).reverse := by
          rw [List.reverse_append]; rfl
    _ = rstripSlashL l ++ List.replicate (l.reverse.takeWhile (fun c => c == '/')).length '/' := by
          rw [hrep]

/-- If `dropWhile` strips nothing from a nonempty list, it strips nothing
after appending to it either. -/
theorem dropWhile_append_of_stable (p : Char → Bool) (xs ys : List Char)
    (hxs : xs.dropWhile p = xs) (hne : xs ≠ []) :
    (xs ++ ys).dropWhile p = xs ++ ys := by
  cases xs with
  | nil => exact absurd rfl hne
  | cons x xt =>
    have hpx : p x = false := by
      by_cases h : p x = true
      · exfalso
        rw [List.dropWhile_cons, if_pos h] at hxs
        have hlen := congrArg List.length hxs
        have hle := (List.dropWhile_sublist p (l := xt)).length_le
        simp at hlen
        omega
      · exact Bool.eq_false_iff.mpr h
    rw [List.cons_append, List.dropWhile_cons, if_neg (by simp [hpx])]

/-- A slash pulled through a run of slashes. -/
theorem replicate_slash_shift (k : Nat) (X : List Char) :
    List.replicate k '/' ++ '/' :: X = '/' :: (List.replicate k '/' ++ X) := by
  induction k with
  | zero => rfl
  | succ k ih => simp [List.replicate_succ, List.cons_append, ih]

/-- A denied path makes `_resolve_and_check` raise, with the listed allowed
roots in the message. -/
theorem resolve_and_check_denied (resolve : String → String) (allowed : List String)
    (path : String)
    (h : (allowed.any fun a => is_under (resolve path) a) = false) :
    resolve_and_check resolve allowed path =
      Except.error (accessDeniedMessage (resolve path) allowed) := by
  unfold resolve_and_check
  simp [h]

/-- C9: every filesystem tool resolves its path first and raises
`PermissionError` with no filesystem operation performed whenever the
resolved path is under none of the allowed roots; and the containment test
`_is_under` accepts a root itself, accepts its descendants, and is invariant
under case changes of either path. -/
theorem c9_sandbox_before_effects :
    (∀ (resolve : String → String) (allowed : List String) (fs : FileSystem)
        (mb mr : Nat) (path enc content mode pat : String) (sh sc : Bool),
      (allowed.any fun a => is_under (resolve path) a) = false →
      read_file_run resolve allowed fs mb path enc =
          (ExecOutcome.permissionError (accessDeniedMessage (resolve path) allowed), [])
        ∧ write_file_run resolve allowed path content mode =
            (ExecOutcome.permissionError (accessDeniedMessage (resolve path) allowed), [])
        ∧ list_directory_run resolve allowed fs path sh =
            (ExecOutcome.permissionError (accessDeniedMessage (resolve path) allowed), [])
        ∧ search_files_run resolve allowed fs path pat sc mr =
            (ExecOutcome.permissionError (accessDeniedMessage (resolve path) allowed), [])
        ∧ delete_file_run resolve allowed fs path =
            (ExecOutcome.permissionError (accessDeniedMessage (resolve path) allowed), []))
    ∧ (∀ r : String, is_under r r = true)
    ∧ (∀ r sub : String, normcaseL sub.toList ≠ [] →
        rstripSlashL (normcaseL sub.toList) = normcaseL sub.toList →
        is_under (r ++ "/" ++ sub) r = true)
    ∧ (∀ c c' p p' : String, normcaseL c.toList = normcaseL c'.toList →
        normcaseL p.toList = normcaseL p'.toList → is_under c p = is_under c' p') := by
  refine ⟨?_, ?_, ?_, ?_⟩
  · intro resolve allowed fs mb mr path enc content mode pat sh sc h
    have hrc := resolve_and_check_denied resolve allowed path h
    exact ⟨by simp [read_file_run, hrc], by simp [write_file_run, hrc],
      by simp [list_directory_run, hrc], by simp [search_files_run, hrc],
      by simp [delete_file_run, hrc]⟩
  · intro r
    unfold is_under isUnderL
    exact isPrefixOf_self _
  · intro r sub hne hnotrail
    unfold is_under
    have htl : (r ++ "/" ++ sub).toList = r.toList ++ '/' :: sub.toList := by
      show (r ++ "/" ++ sub).data = r.data ++ '/' :: sub.data
      rw [String.data_append, String.data_append, List.append_assoc]
      rfl
    rw [htl]
    have hmap : normcaseL (r.toList ++ '/' :: sub.toList) =
        normcaseL r.toList ++ '/' :: normcaseL sub.toList := by
      simp [normcaseL]
    rw [hmap]
    unfold isUnderL
    have hdw : (normcaseL sub.toList).reverse.dropWhile (fun c => c == '/') =
        (normcaseL sub.toList).reverse := by
      have := congrArg List.reverse hnotrail
      rwa [rstripSlashL, List.reverse_reverse] at this
    have hSrev : (normcaseL sub.toList).reverse ≠ [] := by
      simpa using hne
    have hrev1 : (normcaseL r.toList ++ '/' :: normcaseL sub.toList).reverse =
        (normcaseL sub.toList).reverse ++ (['/'] ++ (normcaseL r.toList).reverse) := by
      simp
    have hchild : rstripSlashL (normcaseL r.toList ++ '/' :: normcaseL sub.toList) =
        normcaseL r.toList ++ '/' :: normcaseL sub.toList := by
      unfold rstripSlashL
      rw [hrev1, dropWhile_append_of_stable _ _ _ hdw hSrev]
      simp
    obtain ⟨k, hk⟩ := rstripSlashL_decomp (normcaseL r.toList)
    have hrewrite : (normcaseL r.toList ++ '/' :: normcaseL sub.toList) ++ ['/'] =
        (rstripSlashL (normcaseL r.toList) ++ ['/']) ++
          (List.replicate k '/' ++ (normcaseL sub.toList ++ ['/'])) := by
      conv_lhs => rw [hk]
      simp only [List.append_assoc, List.cons_append, List.singleton_append,
        replicate_slash_shift]
      rfl
    rw [hchild, hrewrite]
    exact isPrefixOf_append_self _ _
  · intro c c' p p' hc hp
    unfold is_under
    rw [hc, hp]

/-- C9 witness: a path outside the single allowed root is denied with no
filesystem operation; a root contains itself and a descendant; containment
ignores case. -/
theorem c9_witness :
    read_file_run (fun q => q) ["/safe"]
        ⟨fun _ => false, fun _ => false, fun _ => false, fun _ => 0, fun _ => none,
         fun _ => [], fun _ _ => [], fun _ => []⟩ 10 "/etc/passwd" "utf-8" =
      (ExecOutcome.permissionError (accessDeniedMessage "/etc/passwd" ["/safe"]), [])
    ∧ delete_file_run (fun q => q) ["/safe"]
        ⟨fun _ => false, fun _ => false, fun _ => false, fun _ => 0, fun _ => none,
         fun _ => [], fun _ _ => [], fun _ => []⟩ "/etc/passwd" =
      (ExecOutcome.permissionError (accessDeniedMessage "/etc/passwd" ["/safe"]), [])
    ∧ is_under "/home/user" "/home/user" = true
    ∧ is_under ("/home/user" ++ "/" ++ "docs/a.txt") "/home/user" = true
    ∧ is_under "/HOME/User/f.txt" "/home/user" = is_under "/home/user/f.txt" "/home/user" :=
  ⟨(c9_sandbox_before_effects.1 (fun q => q) ["/safe"]
      ⟨fun _ => false, fun _ => false, fun _ => false, fun _ => 0, fun _ => none,
       fun _ => [], fun _ _ => [], fun _ => []⟩ 10 20 "/etc/passwd" "utf-8" "c" "overwrite"
      "p" false false (by decide)).1,
   (c9_sandbox_before_effects.1 (fun q => q) ["/safe"]
      ⟨fun _ => false, fun _ => false, fun _ => false, fun _ => 0, fun _ => none,
       fun _ => [], fun _ _ => [], fun _ => []⟩ 10 20 "/etc/passwd" "utf-8" "c" "overwrite"
      "p" false false (by decide)).2.2.2.2,
   c9_sandbox_before_effects.2.1 "/home/user",
   c9_sandbox_before_effects.2.2.1 "/home/user" "docs/a.txt" (by decide) (by decide),
   c9_sandbox_before_effects.2.2.2 "/HOME/User/f.txt" "/home/user/f.txt" "/home/user"
     "/home/user" (by decide) (by decide)⟩

end LocalForge
